import Mathlib

/-!
Verification of the manifest-generation core of the
`aemscreens-offlineresources-generator` repository (`src/utils/pathUtils.js`:
the `PathUtils` helpers and the `ManifestGenerator` class).

JS strings are modelled as Lean `String`s with explicit models of the
JS string primitives used by the source (`trim`, `substring`, `indexOf`,
`lastIndexOf`, `includes`, `slice`).  JS numbers holding epoch-millisecond
timestamps are modelled as `Nat`.  The asynchronous network probe and the
git dirty-check are external collaborators and enter as function-valued
parameters.  Fallible code returns `Except Unit`.
-/

/-- Whitespace test used by the model of JS `String.prototype.trim`
(the ASCII whitespace characters that can occur in resource paths). -/
def isJsWS (c : Char) : Bool :=
  c == ' ' || c == '\t' || c == '\n' || c == '\r' || c == '\x0b' || c == '\x0c'

/-- Drop leading whitespace from a character list. -/
def trimLeftWS : List Char → List Char
  | [] => []
  | c :: cs => if isJsWS c then trimLeftWS cs else c :: cs

/-- Drop trailing whitespace from a character list. -/
def trimRightWS (l : List Char) : List Char := (trimLeftWS l.reverse).reverse

/-- Model of JS `String.prototype.trim`. -/
def jsTrim (s : String) : String := ⟨trimRightWS (trimLeftWS s.data)⟩

/-- Index of the first occurrence of `pat` in a character list
(`none` if `pat` does not occur).  The empty pattern occurs at 0. -/
def firstOccurIdx (pat : List Char) : List Char → Option Nat
  | [] => if pat.isEmpty then some 0 else none
  | c :: cs =>
    if pat.isPrefixOf (c :: cs) then some 0
    else (firstOccurIdx pat cs).map (· + 1)

/-- Model of JS `String.prototype.indexOf`: index of the first occurrence
of `pat` in `s`, or `-1` when absent. -/
def jsIndexOf (s pat : String) : Int :=
  match firstOccurIdx pat.data s.data with
  | some i => (i : Int)
  | none => -1

/-- Index of the first occurrence of `pat` in `s` at or after position `k`,
or `-1` when absent (used only to state spec-side properties). -/
def jsIndexOfFrom (s pat : String) (k : Nat) : Int :=
  match firstOccurIdx pat.data (s.data.drop k) with
  | some i => ((k + i : Nat) : Int)
  | none => -1

/-- Clamp a JS string index into `[0, len]` as `substring` does. -/
def clampIdx (len : Nat) (i : Int) : Nat :=
  if i ≤ 0 then 0 else min i.toNat len

/-- Model of JS `String.prototype.substring(a, b)`: negative arguments clamp
to 0, arguments above the length clamp to the length, and the two indices
are swapped when given out of order. -/
def jsSubstring (s : String) (a b : Int) : String :=
  let n := s.data.length
  let x := clampIdx n a
  let y := clampIdx n b
  ⟨(s.data.drop (min x y)).take (max x y - min x y)⟩

/-- Model of the one-argument JS `substring` (and of `slice` for a
nonnegative start index). -/
def jsSubstringFrom (s : String) (a : Int) : String :=
  jsSubstring s a (s.data.length : Int)

/-- Model of JS `String.prototype.lastIndexOf` for a single character. -/
def jsLastIndexOf (s : String) (c : Char) : Int :=
  match s.data.reverse.findIdx? (· == c) with
  | some j => ((s.data.length - 1 - j : Nat) : Int)
  | none => -1

/-- Model of JS `String.prototype.includes`: `pat` occurs somewhere in `s`. -/
def jsIncludes (s pat : String) : Bool := (firstOccurIdx pat.data s.data).isSome

/-- Modelled from the spec: `src/constants.js` is not among the sources.
The spec calls this value "a fixed media-prefix marker" for media hosted in
Franklin and shows media paths of the form `/media_1234.png`, so the marker
is fixed to `"/media_"`.  The source names it `MEDIA_PREFIX`. -/
def Constants.MEDIA_MARKER : String := "/media_"

/-- `PathUtils.getParentFromPath`: substring before the last slash
(empty when the path has no slash). -/
def PathUtils.getParentFromPath (path : String) : String :=
  jsSubstring path 0 (jsLastIndexOf path '/')

/-- `PathUtils.isMedia`: the trimmed path contains the media marker. -/
def PathUtils.isMedia (resourcePath : String) : Bool :=
  jsIncludes (jsTrim resourcePath) Constants.MEDIA_MARKER

/-- `PathUtils.getHashFromMedia`: substring of the trimmed path between the
length of the media marker and the first dot of the whole trimmed path. -/
def PathUtils.getHashFromMedia (resourcePath : String) : String :=
  let trimmedResourcePath := jsTrim resourcePath
  jsSubstring trimmedResourcePath (Constants.MEDIA_MARKER.data.length : Int)
    (jsIndexOf trimmedResourcePath ".")

/-- `PathUtils.extractMediaFromPath`: substring of the trimmed path starting
at the index of the media marker computed on the trimmed path. -/
def PathUtils.extractMediaFromPath (resourcePath : String) : String :=
  let trimmedResourcePath := jsTrim resourcePath
  jsSubstringFrom trimmedResourcePath
    (jsIndexOf trimmedResourcePath Constants.MEDIA_MARKER)

/-- `ManifestGenerator.trimImagesPath`: trim the item, drop one leading dot
when present, and drop any `?query` suffix. -/
def ManifestGenerator.trimImagesPath (item : String) : String :=
  let trimmedItem := jsTrim item
  let noDot :=
    if trimmedItem.data.head? = some '.' then jsSubstringFrom trimmedItem 1
    else trimmedItem
  ⟨noDot.data.takeWhile (fun c => c ≠ '?')⟩

/-- `ManifestGenerator.isMedia` (duplicate of `PathUtils.isMedia`). -/
def ManifestGenerator.isMedia (path : String) : Bool :=
  jsIncludes (jsTrim path) Constants.MEDIA_MARKER

/-- `ManifestGenerator.getHashFromMedia` (duplicate of
`PathUtils.getHashFromMedia`). -/
def ManifestGenerator.getHashFromMedia (path : String) : String :=
  let path1 := jsTrim path
  jsSubstring path1 (Constants.MEDIA_MARKER.data.length : Int)
    (jsIndexOf path1 ".")

/-- `ManifestGenerator.extractMediaFromPath`: substring of the trimmed path
starting at the index of the media marker computed on the UNtrimmed path
(this is the one place the duplicate differs from `PathUtils`). -/
def ManifestGenerator.extractMediaFromPath (path : String) : String :=
  jsSubstringFrom (jsTrim path) (jsIndexOf path Constants.MEDIA_MARKER)

/-- Modelled from the spec: `src/utils/fetchUtils.js` is not among the
sources.  Per the spec, `ResourceProber.fetchMetadata(host, path, "HEAD")`
either returns a response whose `last-modified` header is optionally
present (modelled as `Except.ok` of the header value already parsed to
epoch milliseconds, `none` when the header is absent or empty) or raises
unavailability (modelled as `Except.error ()`). -/
abbrev Probe := String → String → Except Unit (Option Nat)

/-- Modelled from the spec: `src/utils/gitUtils.js` is not among the
sources.  Per the spec, `DirtyChecker.isLocallyModified(relativePath)`
returns a boolean. -/
abbrev DirtyCheck := String → Bool

deriving instance DecidableEq for Except

/-- A manifest entry: a path, an optional epoch-millisecond timestamp and
an optional media hash (the JS object carries the optional fields only
when they were assigned). -/
structure Entry where
  path : String
  timestamp : Option Nat := none
  hash : Option String := none
deriving Repr, DecidableEq

/-- Per-page resource metadata as drawn from the manifest map.  The JSON
round-trip of the six category lists is modelled as the already-parsed
lists, with an absent category as the empty list (the source defaults the
raw JSON to the string for the empty list).  `path` is the `data.path`
field the source reads off the looked-up record. -/
structure PageData where
  path : String
  scripts : List String := []
  styles : List String := []
  assets : List String := []
  inlineImages : List String := []
  dependencies : List String := []
  fragments : List String := []
deriving Repr, DecidableEq

structure Provider where
  name : String
  endpoint : String
deriving Repr, DecidableEq

structure ContentDelivery where
  providers : List Provider
  defaultProvider : String
deriving Repr, DecidableEq

/-- The manifest document shape emitted by `createManifest`. -/
structure Manifest where
  version : String
  timestamp : Nat
  entries : List Entry
  contentDelivery : ContentDelivery
deriving Repr, DecidableEq

/-- Model of JS `Map.prototype.set` on an insertion-ordered association
list: overwriting an existing key keeps its original position, a new key
is appended. -/
def mapSet (m : List (String × Entry)) (k : String) (v : Entry) : List (String × Entry) :=
  if k ∈ m.map Prod.fst then
    m.map (fun p => if p.1 = k then (k, v) else p)
  else m ++ [(k, v)]

/-- Model of JS `new Set([...])` spread-iteration order: duplicates are
dropped, the first occurrence keeps its place. -/
def dedupFirst (l : List String) : List String :=
  l.foldl (fun acc x => if x ∈ acc then acc else acc ++ [x]) []

/-- `ManifestGenerator.getPageJsonEntry`: probe `path + ".html"`, then build
the page entry; the timestamp is the wall-clock `now` when `isHtmlUpdated`
is truthy, else the parsed `last-modified` value when present, else absent.
The probe is awaited without a catch, so a failing probe propagates. -/
def ManifestGenerator.getPageJsonEntry (fetchLM : Probe) (now : Nat)
    (host path : String) (isHtmlUpdated : Bool) : Except Unit Entry :=
  let entryPath := path ++ ".html"
  match fetchLM host entryPath with
  | .error e => .error e
  | .ok date =>
    if isHtmlUpdated then .ok { path := entryPath, timestamp := some now }
    else
      match date with
      | some t => .ok { path := entryPath, timestamp := some t }
      | none => .ok { path := entryPath }

/-- One iteration of the resource loop in `ManifestGenerator.createEntries`
(loop body for one `resourcesArr[i]`, threading the `entriesJson` list and
the `lastModified` accumulator). -/
def ManifestGenerator.processResource (fetchLM : Probe) (isFileDirty : DirtyCheck)
    (host parentPath : String) (acc : List Entry × Nat) (r : String) :
    List Entry × Nat :=
  let es := acc.1
  let lastModified := acc.2
  let resourceSubPath := jsTrim r
  match fetchLM host resourceSubPath with
  | .ok date =>
    if ManifestGenerator.isMedia resourceSubPath then
      (es ++ [{ path := parentPath ++ r,
                hash := some (ManifestGenerator.getHashFromMedia resourceSubPath) }],
       lastModified)
    else
      match date with
      | some timestamp =>
        -- js: if (timestamp > lastModified) lastModified = timestamp
        (es ++ [{ path := r, timestamp := some timestamp }], max lastModified timestamp)
      | none => (es ++ [{ path := r }], lastModified)
  | .error _ =>
    -- the probe threw: the resource is kept only when the dirty-check
    -- succeeds, and then `resp` stays undefined so no date is read
    if isFileDirty (jsSubstringFrom resourceSubPath 1) then
      if ManifestGenerator.isMedia resourceSubPath then
        (es ++ [{ path := parentPath ++ r,
                  hash := some (ManifestGenerator.getHashFromMedia resourceSubPath) }],
         lastModified)
      else (es ++ [{ path := r }], lastModified)
    else (es, lastModified)

/-- `ManifestGenerator.createEntries`: build the page entry, seed
`lastModified` from it (the JS test `timestamp && timestamp > 0` makes a
zero timestamp leave the zero seed unchanged, which coincides with it),
then process every resource in order. -/
def ManifestGenerator.createEntries (fetchLM : Probe) (isFileDirty : DirtyCheck)
    (now : Nat) (host path : String) (pageResources : List String)
    (isHtmlUpdated : Bool) : Except Unit (List Entry × Nat) :=
  let parentPath := PathUtils.getParentFromPath path
  match ManifestGenerator.getPageJsonEntry fetchLM now host path isHtmlUpdated with
  | .error e => .error e
  | .ok pageEntryJson =>
    let lm0 : Nat :=
      match pageEntryJson.timestamp with
      | some t => if t ≠ 0 ∧ 0 < t then t else 0
      | none => 0
    .ok (pageResources.foldl
      (ManifestGenerator.processResource fetchLM isFileDirty host parentPath)
      ([pageEntryJson], lm0))

/-- The union resource set of `createManifest`: scripts, styles, normalized
assets, normalized inline images, dependencies and the caller-supplied
additional assets, deduplicated in first-occurrence order. -/
def ManifestGenerator.pageResourceSet (data : PageData) (additionalAssets : List String) :
    List String :=
  dedupFirst (data.scripts ++ data.styles
    ++ data.assets.map ManifestGenerator.trimImagesPath
    ++ data.inlineImages.map ManifestGenerator.trimImagesPath
    ++ data.dependencies ++ additionalAssets)

/-- The rebasing applied to one fragment-produced entry before it is merged
into the parent map: a media path is replaced by
`getParentFromPath(parentPagePath) ++ extractMediaFromPath(path)`, any
other path is kept. -/
def ManifestGenerator.rebaseFragmentEntry (path : String) (e : Entry) : Entry :=
  if ManifestGenerator.isMedia e.path then
    { e with path := PathUtils.getParentFromPath path
        ++ ManifestGenerator.extractMediaFromPath e.path }
  else e

/-- Merging one fragment-produced entry into the parent entry map
(the `newEntries.forEach` body in `createManifest`). -/
def ManifestGenerator.mergeFragmentEntry (path : String)
    (m : List (String × Entry)) (e : Entry) : List (String × Entry) :=
  let e2 := ManifestGenerator.rebaseFragmentEntry path e
  mapSet m e2.path e2

/-- The fragment loop of `createManifest`: for each fragment path, run the
recursive manifest build (passed in as `cmf`), merge its entries through
`mergeFragmentEntry` and accumulate `fragmentsLastModified` as a max. -/
def ManifestGenerator.processFragments (path : String)
    (cmf : String → List String → Except Unit (Manifest × Nat)) :
    List String → List (String × Entry) → Nat →
    Except Unit (List (String × Entry) × Nat)
  | [], m, fragmentsLastModified => .ok (m, fragmentsLastModified)
  | fragmentPath :: rest, m, fragmentsLastModified =>
    match cmf fragmentPath [fragmentPath ++ ".plain.html"] with
    | .error e => .error e
    | .ok (subManifest, fragmentLastModified) =>
      ManifestGenerator.processFragments path cmf rest
        (subManifest.entries.foldl (ManifestGenerator.mergeFragmentEntry path) m)
        (max fragmentsLastModified fragmentLastModified)

/-- `ManifestGenerator.createManifest`.  The JS recursion has no cycle
guard; the `fuel` parameter bounds the recursion depth of the model, with
exhaustion modelled as an error (every terminating JS run is reproduced by
every sufficiently large fuel).  A page path absent from the manifest map
makes the JS destructuring throw, modelled as an error as well. -/
def ManifestGenerator.createManifest (fetchLM : Probe) (isFileDirty : DirtyCheck)
    (now : Nat) (host : String) (manifestMap : String → Option PageData)
    (isHtmlUpdatedMap : String → Bool) :
    Nat → String → List String → Except Unit (Manifest × Nat)
  | 0, _, _ => .error ()
  | fuel + 1, path, additionalAssets =>
    match manifestMap path with
    | none => .error ()
    | some data =>
      match ManifestGenerator.createEntries fetchLM isFileDirty now host data.path
          (ManifestGenerator.pageResourceSet data additionalAssets)
          (isHtmlUpdatedMap data.path) with
      | .error e => .error e
      | .ok (entries, lastModified) =>
        match ManifestGenerator.processFragments path
            (fun p aa => ManifestGenerator.createManifest fetchLM isFileDirty now host
              manifestMap isHtmlUpdatedMap fuel p aa)
            data.fragments
            (entries.foldl (fun m e => mapSet m e.path e) []) 0 with
        | .error e => .error e
        | .ok (allEntries, fragmentsLastModified) =>
          .ok ({ version := "3.0",
                 timestamp := max lastModified fragmentsLastModified,
                 entries := allEntries.map Prod.snd,
                 contentDelivery :=
                   { providers := [{ name := "franklin", endpoint := "/" }],
                     defaultProvider := "franklin" } },
               max lastModified fragmentsLastModified)

/-!  Specification-side definitions.  These follow the words of the spec
and of the claims (not the source) and are used to state refinement-style
properties of the source-derived definitions above. -/

/-- Spec-side reading of the phrase "the media suffix of the entry's path
(the substring starting at the media-prefix marker)". -/
def mediaSuffixLiteral (p : String) : String :=
  jsSubstringFrom p (jsIndexOf p Constants.MEDIA_MARKER)

/-- Spec-side reading of the phrase "the substring between the media-prefix
marker and the first dot after the marker": the substring of the trimmed
path from the end of the first marker occurrence to the first dot at or
after that point. -/
def hashBetweenMarkerAndDot (p : String) : String :=
  let t := jsTrim p
  let s := jsIndexOf t Constants.MEDIA_MARKER + (Constants.MEDIA_MARKER.data.length : Int)
  jsSubstring t s (jsIndexOfFrom t "." s.toNat)

/-!  Character-list facts about the JS string primitives. -/

theorem mediaMarker_data :
    Constants.MEDIA_MARKER.data = ['/', 'm', 'e', 'd', 'i', 'a', '_'] := rfl

/-- The empty pattern occurs at the front of every list. -/
theorem firstOccurIdx_nil_pat (l : List Char) : firstOccurIdx [] l = some 0 := by
  cases l <;> simp [firstOccurIdx, List.isPrefixOf]

/-- A list is a Boolean prefix of itself followed by anything. -/
theorem isPrefixOf_self_append (l t : List Char) : l.isPrefixOf (l ++ t) = true := by
  induction l with
  | nil => simp [List.isPrefixOf]
  | cons c cs ih => simp [List.isPrefixOf, ih]

/-- A nonempty pattern occurs at index 0 of itself followed by anything. -/
theorem firstOccurIdx_self_append (pat t : List Char) (h : pat ≠ []) :
    firstOccurIdx pat (pat ++ t) = some 0 := by
  cases pat with
  | nil => exact absurd rfl h
  | cons c cs =>
    have hp : (c :: cs).isPrefixOf ((c :: cs) ++ t) = true := isPrefixOf_self_append _ _
    rw [List.cons_append] at hp ⊢
    rw [firstOccurIdx]
    simp [hp]

/-- Occurrences of a single character shift across a prefix free of it. -/
theorem firstOccurIdx_single_append (a : Char) (l1 l2 : List Char) (h : a ∉ l1) :
    firstOccurIdx [a] (l1 ++ l2) = (firstOccurIdx [a] l2).map (· + l1.length) := by
  induction l1 with
  | nil =>
    simp only [List.nil_append, List.length_nil]
    cases firstOccurIdx [a] l2 <;> simp
  | cons c cs ih =>
    have hne : (a == c) = false := by
      rw [beq_eq_false_iff_ne]
      intro hac
      exact h (by simp [hac])
    rw [List.cons_append, firstOccurIdx]
    have hpf : ([a].isPrefixOf (c :: (cs ++ l2))) = false := by
      simp [List.isPrefixOf, hne]
    rw [hpf]
    simp only [Bool.false_eq_true, if_false]
    rw [ih (fun hm => h (List.mem_cons_of_mem _ hm))]
    cases firstOccurIdx [a] l2 <;> (simp [List.length_cons]; try omega)

/-- Decomposition of a list into its dropped whitespace head and its
left-trimmed remainder. -/
theorem trimLeftWS_decomp (l : List Char) :
    ∃ w, l = w ++ trimLeftWS l ∧ ∀ c ∈ w, isJsWS c = true := by
  induction l with
  | nil => exact ⟨[], rfl, by simp⟩
  | cons c cs ih =>
    by_cases hc : isJsWS c = true
    · obtain ⟨w, hw, hws⟩ := ih
      refine ⟨c :: w, ?_, ?_⟩
      · rw [trimLeftWS, if_pos hc, List.cons_append]
        exact congrArg (c :: ·) hw
      · intro x hx
        rcases List.mem_cons.mp hx with h1 | h2
        · rw [h1]; exact hc
        · exact hws x h2
    · refine ⟨[], ?_, by simp⟩
      rw [trimLeftWS, if_neg hc, List.nil_append]

/-- Decomposition of a list into its right-trimmed remainder and its
dropped whitespace tail. -/
theorem trimRightWS_decomp (l : List Char) :
    ∃ w, l = trimRightWS l ++ w ∧ ∀ c ∈ w, isJsWS c = true := by
  obtain ⟨w, hw, hws⟩ := trimLeftWS_decomp l.reverse
  refine ⟨w.reverse, ?_, fun c hc => hws c (List.mem_reverse.mp hc)⟩
  have h2 := congrArg List.reverse hw
  simpa [trimRightWS, List.reverse_append] using h2

/-- The left-trimmed list is empty or starts with a non-whitespace char. -/
theorem trimLeftWS_head (l : List Char) :
    trimLeftWS l = [] ∨ ∃ c cs, trimLeftWS l = c :: cs ∧ isJsWS c = false := by
  induction l with
  | nil => exact .inl rfl
  | cons c cs ih =>
    by_cases hc : isJsWS c = true
    · rw [trimLeftWS, if_pos hc]; exact ih
    · exact .inr ⟨c, cs, by rw [trimLeftWS, if_neg hc], Bool.eq_false_iff.mpr hc⟩

/-- Left-trimming is the identity when the head is not whitespace. -/
theorem trimLeftWS_eq_self (l : List Char)
    (h : ∀ c cs, l = c :: cs → isJsWS c = false) : trimLeftWS l = l := by
  cases l with
  | nil => rfl
  | cons c cs => rw [trimLeftWS, if_neg (by simp [h c cs rfl])]

theorem trimLeftWS_idem (l : List Char) :
    trimLeftWS (trimLeftWS l) = trimLeftWS l := by
  rcases trimLeftWS_head l with h | ⟨c, cs, h, hc⟩
  · rw [h]; rfl
  · rw [h, trimLeftWS, if_neg (by simp [hc])]

theorem trimRightWS_idem (l : List Char) :
    trimRightWS (trimRightWS l) = trimRightWS l := by
  simp [trimRightWS, List.reverse_reverse, trimLeftWS_idem]

/-- Left-trimming does nothing after right-trimming a list whose head is
not whitespace. -/
theorem trimLeftWS_trimRightWS_of_head (l : List Char)
    (h : ∀ c cs, l = c :: cs → isJsWS c = false) :
    trimLeftWS (trimRightWS l) = trimRightWS l := by
  apply trimLeftWS_eq_self
  intro c cs hcc
  obtain ⟨w, hw, _⟩ := trimRightWS_decomp l
  rw [hcc, List.cons_append] at hw
  exact h c (cs ++ w) hw

theorem jsTrim_idem (s : String) : jsTrim (jsTrim s) = jsTrim s := by
  show String.mk (trimRightWS (trimLeftWS (trimRightWS (trimLeftWS s.data)))) = _
  have h1 : trimLeftWS (trimRightWS (trimLeftWS s.data))
      = trimRightWS (trimLeftWS s.data) := by
    apply trimLeftWS_trimRightWS_of_head
    intro c cs hcc
    rcases trimLeftWS_head s.data with h | ⟨c2, cs2, h2, hc2⟩
    · rw [h] at hcc; cases hcc
    · rw [h2] at hcc
      cases hcc
      exact hc2
  rw [h1, trimRightWS_idem]
  rfl

/-- Appending trailing whitespace does not change whether an all
non-whitespace pattern is a Boolean prefix. -/
theorem isPrefixOf_append_ws (pat s w : List Char)
    (hpat : ∀ c ∈ pat, isJsWS c = false) (hw : ∀ c ∈ w, isJsWS c = true) :
    pat.isPrefixOf (s ++ w) = pat.isPrefixOf s := by
  induction pat generalizing s with
  | nil => simp [List.isPrefixOf]
  | cons p ps ih =>
    cases s with
    | nil =>
      simp only [List.nil_append]
      cases w with
      | nil => rfl
      | cons c cs =>
        have hpc : (p == c) = false := by
          rw [beq_eq_false_iff_ne]
          intro he
          have h1 := hpat p (by simp)
          have h2 := hw c (by simp)
          rw [he, h2] at h1
          cases h1
        simp [List.isPrefixOf, hpc]
    | cons c cs =>
      simp only [List.cons_append, List.isPrefixOf, List.append_eq]
      rw [ih cs (fun x hx => hpat x (List.mem_cons_of_mem _ hx))]

/-- A nonempty all non-whitespace pattern never occurs in all-whitespace. -/
theorem firstOccurIdx_ws_none (pat w : List Char) (hne : pat ≠ [])
    (hpat : ∀ c ∈ pat, isJsWS c = false) (hw : ∀ c ∈ w, isJsWS c = true) :
    firstOccurIdx pat w = none := by
  induction w with
  | nil =>
    cases pat with
    | nil => exact absurd rfl hne
    | cons p ps => rw [firstOccurIdx]; simp
  | cons c cs ih =>
    cases pat with
    | nil => exact absurd rfl hne
    | cons p ps =>
      have hpc : (p == c) = false := by
        rw [beq_eq_false_iff_ne]
        intro he
        have h1 := hpat p (by simp)
        have h2 := hw c (by simp)
        rw [he, h2] at h1
        cases h1
      rw [firstOccurIdx]
      have hno : ((p :: ps).isPrefixOf (c :: cs)) = false := by
        simp [List.isPrefixOf, hpc]
      rw [hno]
      simp [ih (fun x hx => hw x (List.mem_cons_of_mem _ hx))]

/-- Appending trailing whitespace does not move (or create) the first
occurrence of a nonempty all non-whitespace pattern. -/
theorem firstOccurIdx_append_ws (pat s w : List Char) (hne : pat ≠ [])
    (hpat : ∀ c ∈ pat, isJsWS c = false) (hw : ∀ c ∈ w, isJsWS c = true) :
    firstOccurIdx pat (s ++ w) = firstOccurIdx pat s := by
  induction s with
  | nil =>
    rw [List.nil_append, firstOccurIdx_ws_none pat w hne hpat hw]
    cases pat with
    | nil => exact absurd rfl hne
    | cons p ps => rw [firstOccurIdx]; simp
  | cons c cs ih =>
    have hp := isPrefixOf_append_ws pat (c :: cs) w hpat hw
    rw [List.cons_append] at hp
    rw [List.cons_append, firstOccurIdx, firstOccurIdx, hp, ih]

/-- On a string without leading whitespace, the index of an all
non-whitespace pattern is the same on the trimmed string. -/
theorem jsIndexOf_trim_eq (s pat : String) (hne : pat.data ≠ [])
    (hpat : ∀ c ∈ pat.data, isJsWS c = false) (h : trimLeftWS s.data = s.data) :
    jsIndexOf (jsTrim s) pat = jsIndexOf s pat := by
  obtain ⟨w, hw, hws⟩ := trimRightWS_decomp s.data
  unfold jsIndexOf
  have hdata : (jsTrim s).data = trimRightWS s.data := by
    show trimRightWS (trimLeftWS s.data) = _
    rw [h]
  rw [hdata]
  conv_rhs => rw [hw]
  rw [firstOccurIdx_append_ws pat.data (trimRightWS s.data) w hne hpat hws]

theorem string_data_append (a b : String) : (a ++ b).data = a.data ++ b.data := by
  cases a
  cases b
  rfl

/-- Claim C10 (confirmed): for every input string without leading
whitespace, `ManifestGenerator.extractMediaFromPath` returns the same
result as `PathUtils.extractMediaFromPath`; the marker index computed on
the untrimmed string equals the one computed on the trimmed string when
trimming only removes trailing whitespace. -/
theorem C10_extract_media_duplicates_agree (s : String)
    (h : trimLeftWS s.data = s.data) :
    ManifestGenerator.extractMediaFromPath s = PathUtils.extractMediaFromPath s := by
  show jsSubstringFrom (jsTrim s) (jsIndexOf s Constants.MEDIA_MARKER) =
    jsSubstringFrom (jsTrim s) (jsIndexOf (jsTrim s) Constants.MEDIA_MARKER)
  rw [jsIndexOf_trim_eq s Constants.MEDIA_MARKER (by decide) (by decide) h]

/-- Witness for C10 at a concrete path with trailing whitespace. -/
theorem C10_extract_media_duplicates_agree_witness :
    trimLeftWS "/f/media_1.png ".data = "/f/media_1.png ".data ∧
    ManifestGenerator.extractMediaFromPath "/f/media_1.png "
      = PathUtils.extractMediaFromPath "/f/media_1.png " :=
  ⟨by decide, C10_extract_media_duplicates_agree "/f/media_1.png " (by decide)⟩

/-- Claim C4, counterexample: `/x/media_123.png` is a media path (it
contains the marker), but `getHashFromMedia` measures from the length of
the marker and from the first dot of the whole string, not from the
marker occurrence, so it returns `"a_123"` instead of the substring
`"123"` between the marker and the first dot after it. -/
theorem C4_counterexample :
    PathUtils.isMedia "/x/media_123.png" = true ∧
    PathUtils.getHashFromMedia "/x/media_123.png" = "a_123" ∧
    hashBetweenMarkerAndDot "/x/media_123.png" = "123" ∧
    PathUtils.getHashFromMedia "/x/media_123.png"
      ≠ hashBetweenMarkerAndDot "/x/media_123.png" := by
  refine ⟨by decide, by decide, by decide, by decide⟩

/-- Claim C4 as amended (proved): when the trimmed path BEGINS with the
media marker (the shape every call site produces), both duplicates of
`getHashFromMedia` return exactly the substring between the marker and
the first dot after it; when no dot follows, both sides produce the same
garbage, so the equation holds unconditionally under the prefix
hypothesis. -/
theorem C4_hash_amended (p r : String)
    (h : jsTrim p = Constants.MEDIA_MARKER ++ r) :
    PathUtils.getHashFromMedia p = hashBetweenMarkerAndDot p ∧
    ManifestGenerator.getHashFromMedia p = hashBetweenMarkerAndDot p := by
  have ht : (jsTrim p).data = Constants.MEDIA_MARKER.data ++ r.data := by
    rw [h, string_data_append]
  have key : PathUtils.getHashFromMedia p = hashBetweenMarkerAndDot p := by
    show jsSubstring (jsTrim p) (Constants.MEDIA_MARKER.data.length : Int)
        (jsIndexOf (jsTrim p) ".")
      = jsSubstring (jsTrim p)
          (jsIndexOf (jsTrim p) Constants.MEDIA_MARKER
            + (Constants.MEDIA_MARKER.data.length : Int))
          (jsIndexOfFrom (jsTrim p) "."
            (jsIndexOf (jsTrim p) Constants.MEDIA_MARKER
              + (Constants.MEDIA_MARKER.data.length : Int)).toNat)
    have hm0 : jsIndexOf (jsTrim p) Constants.MEDIA_MARKER = 0 := by
      unfold jsIndexOf
      rw [ht, firstOccurIdx_self_append _ _ (by decide)]
      rfl
    rw [hm0]
    have hlen : (Constants.MEDIA_MARKER.data.length : Int) = 7 := by decide
    rw [hlen]
    norm_num
    have hdot : jsIndexOf (jsTrim p) "."
        = match firstOccurIdx ['.'] r.data with
          | some j => ((j + 7 : Nat) : Int)
          | none => -1 := by
      unfold jsIndexOf
      rw [show ".".data = ['.'] from rfl, ht,
        firstOccurIdx_single_append '.' Constants.MEDIA_MARKER.data r.data (by decide)]
      rcases firstOccurIdx ['.'] r.data with _ | j <;> simp [mediaMarker_data]
    have hfrom : jsIndexOfFrom (jsTrim p) "." 7
        = match firstOccurIdx ['.'] r.data with
          | some j => ((7 + j : Nat) : Int)
          | none => -1 := by
      unfold jsIndexOfFrom
      rw [show ".".data = ['.'] from rfl, ht,
        show (Constants.MEDIA_MARKER.data ++ r.data).drop 7 = r.data from by
          simp [mediaMarker_data]]
    rw [show Int.toNat 7 = 7 from rfl, hdot, hfrom]
    rcases firstOccurIdx ['.'] r.data with _ | j
    · rfl
    · show jsSubstring (jsTrim p) 7 ((j + 7 : Nat) : Int)
        = jsSubstring (jsTrim p) 7 ((7 + j : Nat) : Int)
      rw [Nat.add_comm j 7]
  refine ⟨key, ?_⟩
  rw [show ManifestGenerator.getHashFromMedia p = PathUtils.getHashFromMedia p from rfl]
  exact key

/-- Witness for the amended C4 at a concrete marker-leading media path. -/
theorem C4_hash_amended_witness :
    jsTrim "/media_77.png" = Constants.MEDIA_MARKER ++ "77.png" ∧
    (PathUtils.getHashFromMedia "/media_77.png"
        = hashBetweenMarkerAndDot "/media_77.png" ∧
      ManifestGenerator.getHashFromMedia "/media_77.png"
        = hashBetweenMarkerAndDot "/media_77.png") :=
  ⟨by decide, C4_hash_amended "/media_77.png" "77.png" (by decide)⟩

/-- Claim C3, counterexample: the probe in `getPageJsonEntry` is awaited
without a catch, so a probe that raises unavailability makes the whole
call fail instead of returning an entry without a timestamp. -/
theorem C3_counterexample :
    ManifestGenerator.getPageJsonEntry (fun _ _ => Except.error ()) 0 "host" "/p" false
      = Except.error () := rfl

/-- Claim C3 as amended (proved): the entry path is `pagePath + ".html"`
and the timestamp is chosen by priority (wall clock when
`isRecentlyUpdated`, else the probe's parsed last-modified value, else
omitted) whenever the probe RETURNS; when the probe raises, the error
propagates out of `getPageJsonEntry` uncaught. -/
theorem C3_page_entry_amended (fetchLM : Probe) (now : Nat) (host path : String)
    (isHtmlUpdated : Bool) :
    (∀ lm, fetchLM host (path ++ ".html") = Except.ok lm →
      ManifestGenerator.getPageJsonEntry fetchLM now host path isHtmlUpdated =
        Except.ok { path := path ++ ".html",
                    timestamp := if isHtmlUpdated then some now else lm,
                    hash := none }) ∧
    (fetchLM host (path ++ ".html") = Except.error () →
      ManifestGenerator.getPageJsonEntry fetchLM now host path isHtmlUpdated =
        Except.error ()) := by
  constructor
  · intro lm hok
    simp only [ManifestGenerator.getPageJsonEntry]
    rw [hok]
    cases isHtmlUpdated
    · cases lm <;> simp
    · simp
  · intro herr
    simp only [ManifestGenerator.getPageJsonEntry]
    rw [herr]

/-- Witness for the amended C3 at a concrete probe result. -/
theorem C3_page_entry_amended_witness :
    ManifestGenerator.getPageJsonEntry (fun _ _ => Except.ok (some 3)) 5 "h" "/p" false =
      Except.ok { path := "/p" ++ ".html",
                  timestamp := if false then some 5 else some 3,
                  hash := none } :=
  (C3_page_entry_amended (fun _ _ => Except.ok (some 3)) 5 "h" "/p" false).1 (some 3) rfl

/-- The seed of the `lastModified` accumulator in `createEntries`
(the JS truthiness test against the zero seed). -/
def ManifestGenerator.pageSeed (pe : Entry) : Nat :=
  match pe.timestamp with
  | some t => if t ≠ 0 ∧ 0 < t then t else 0
  | none => 0

/-- Unfolding equation of `createEntries` when the page probe returns. -/
theorem createEntries_ok (fetchLM : Probe) (isFileDirty : DirtyCheck)
    (now : Nat) (host path : String) (pageResources : List String)
    (isHtmlUpdated : Bool) (pe : Entry)
    (hpe : ManifestGenerator.getPageJsonEntry fetchLM now host path isHtmlUpdated
      = Except.ok pe) :
    ManifestGenerator.createEntries fetchLM isFileDirty now host path
        pageResources isHtmlUpdated
      = Except.ok (pageResources.foldl
          (ManifestGenerator.processResource fetchLM isFileDirty host
            (PathUtils.getParentFromPath path))
          ([pe], ManifestGenerator.pageSeed pe)) := by
  unfold ManifestGenerator.createEntries
  rw [hpe]
  rfl

/-- Unfolding equation of `createEntries` when the page probe throws. -/
theorem createEntries_err (fetchLM : Probe) (isFileDirty : DirtyCheck)
    (now : Nat) (host path : String) (pageResources : List String)
    (isHtmlUpdated : Bool) (e : Unit)
    (hpe : ManifestGenerator.getPageJsonEntry fetchLM now host path isHtmlUpdated
      = Except.error e) :
    ManifestGenerator.createEntries fetchLM isFileDirty now host path
        pageResources isHtmlUpdated = Except.error e := by
  unfold ManifestGenerator.createEntries
  rw [hpe]

/-- One loop iteration of `createEntries` does nothing when the probe
throws and the dirty-check also fails. -/
theorem processResource_skip (fetchLM : Probe) (isFileDirty : DirtyCheck)
    (host parentPath : String) (acc : List Entry × Nat) (r : String)
    (hfail : fetchLM host (jsTrim r) = Except.error ())
    (hdirty : isFileDirty (jsSubstringFrom (jsTrim r) 1) = false) :
    ManifestGenerator.processResource fetchLM isFileDirty host parentPath acc r = acc := by
  simp only [ManifestGenerator.processResource]
  rw [hfail]
  simp [hdirty]

/-- Claim C5 (confirmed): a resource whose probe throws and whose
dirty-check returns false is skipped entirely; `createEntries` returns
exactly what it returns with that resource removed from the list, so it
contributes no entry, does not affect the aggregate timestamp, and raises
no error. -/
theorem C5_failed_resource_skipped (fetchLM : Probe) (isFileDirty : DirtyCheck)
    (now : Nat) (host path : String) (l1 l2 : List String) (r : String)
    (isHtmlUpdated : Bool)
    (hfail : fetchLM host (jsTrim r) = Except.error ())
    (hdirty : isFileDirty (jsSubstringFrom (jsTrim r) 1) = false) :
    ManifestGenerator.createEntries fetchLM isFileDirty now host path
        (l1 ++ r :: l2) isHtmlUpdated
      = ManifestGenerator.createEntries fetchLM isFileDirty now host path
        (l1 ++ l2) isHtmlUpdated := by
  cases hpe : ManifestGenerator.getPageJsonEntry fetchLM now host path isHtmlUpdated with
  | error e =>
    rw [createEntries_err fetchLM isFileDirty now host path _ isHtmlUpdated e hpe,
      createEntries_err fetchLM isFileDirty now host path _ isHtmlUpdated e hpe]
  | ok pe =>
    rw [createEntries_ok fetchLM isFileDirty now host path _ isHtmlUpdated pe hpe,
      createEntries_ok fetchLM isFileDirty now host path _ isHtmlUpdated pe hpe,
      List.foldl_append, List.foldl_append, List.foldl_cons,
      processResource_skip fetchLM isFileDirty host _ _ r hfail hdirty]

/-- Witness for C5 at a concrete failing resource. -/
theorem C5_failed_resource_skipped_witness :
    (fun _ p => if p = "/x" then Except.error () else Except.ok none : Probe)
        "h" (jsTrim "/x") = Except.error () ∧
    ManifestGenerator.createEntries
        (fun _ p => if p = "/x" then Except.error () else Except.ok none)
        (fun _ => false) 0 "h" "/a/p" ([] ++ "/x" :: []) false
      = ManifestGenerator.createEntries
        (fun _ p => if p = "/x" then Except.error () else Except.ok none)
        (fun _ => false) 0 "h" "/a/p" ([] ++ []) false :=
  ⟨by decide,
    C5_failed_resource_skipped
      (fun _ p => if p = "/x" then Except.error () else Except.ok none)
      (fun _ => false) 0 "h" "/a/p" [] [] "/x" false (by decide) rfl⟩

/-- Manifest map fixture: a page at `/a/b/page` including a fragment
page keyed `frag`, whose own path has no slash and whose dependency list
carries a media path with a leading space (dependencies are not
normalized, so the space survives into the entry path). -/
def exC2Map : String → Option PageData := fun p =>
  if p = "/a/b/page" then some { path := "/a/b/page", fragments := ["frag"] }
  else if p = "frag" then some { path := "frag", dependencies := [" /media_9.png"] }
  else none

/-- Probe fixture: always reachable, never a last-modified header. -/
def exC2Probe : Probe := fun _ _ => Except.ok none

/-- Claim C2, counterexample: the fragment run emits the media entry with
path `" /media_9.png"`, and the parent run merges it at path
`"/a/bmedia_9.png"` (the marker index is computed on the untrimmed path
but the substring is taken of the trimmed one, dropping the leading
slash of the suffix), whereas the claim predicts
`parentOf("/a/b/page") ++ substring-from-marker = "/a/b/media_9.png"`,
which appears nowhere in the merged manifest. -/
theorem C2_counterexample :
    (ManifestGenerator.createManifest exC2Probe (fun _ => false) 0 "h" exC2Map
        (fun _ => false) 2 "frag" ["frag.plain.html"]).map (fun pr => pr.1.entries)
      = Except.ok [⟨"frag.html", none, none⟩, ⟨" /media_9.png", none, some "9"⟩,
          ⟨"frag.plain.html", none, none⟩] ∧
    ManifestGenerator.isMedia " /media_9.png" = true ∧
    (ManifestGenerator.createManifest exC2Probe (fun _ => false) 0 "h" exC2Map
        (fun _ => false) 3 "/a/b/page" []).map (fun pr => pr.1.entries.map Entry.path)
      = Except.ok ["/a/b/page.html", "frag.html", "/a/bmedia_9.png", "frag.plain.html"] ∧
    PathUtils.getParentFromPath "/a/b/page" ++ mediaSuffixLiteral " /media_9.png"
      = "/a/b/media_9.png" ∧
    ((ManifestGenerator.createManifest exC2Probe (fun _ => false) 0 "h" exC2Map
        (fun _ => false) 3 "/a/b/page" []).map (fun pr => pr.1.entries.map Entry.path)
      ≠ Except.ok ["/a/b/page.html", "frag.html", "/a/b/media_9.png", "frag.plain.html"]) := by
  refine ⟨by decide, by decide, by decide, by decide, by decide⟩

/-- Claim C2 as amended (proved): for a fragment-produced entry whose path
equals its own trim (no leading or trailing whitespace), merging rebases a
media path to `parentOf(pagePath) ++` the substring of the entry path
starting at the media marker, and merges a non-media entry unchanged. -/
theorem C2_fragment_media_rebase_amended (path : String)
    (m : List (String × Entry)) (e : Entry) (h : jsTrim e.path = e.path) :
    (ManifestGenerator.isMedia e.path = true →
      ManifestGenerator.mergeFragmentEntry path m e =
        mapSet m (PathUtils.getParentFromPath path ++ mediaSuffixLiteral e.path)
          { e with path := PathUtils.getParentFromPath path ++ mediaSuffixLiteral e.path }) ∧
    (ManifestGenerator.isMedia e.path = false →
      ManifestGenerator.mergeFragmentEntry path m e = mapSet m e.path e) := by
  have hx : ManifestGenerator.extractMediaFromPath e.path = mediaSuffixLiteral e.path := by
    unfold ManifestGenerator.extractMediaFromPath mediaSuffixLiteral
    rw [h]
  constructor
  · intro hm
    unfold ManifestGenerator.mergeFragmentEntry ManifestGenerator.rebaseFragmentEntry
    rw [hm]
    simp [hx]
  · intro hm
    unfold ManifestGenerator.mergeFragmentEntry ManifestGenerator.rebaseFragmentEntry
    rw [hm]
    simp

/-- Witness for the amended C2 at a concrete media entry. -/
theorem C2_fragment_media_rebase_amended_witness :
    jsTrim "/media_9.png" = "/media_9.png" ∧
    ManifestGenerator.isMedia "/media_9.png" = true ∧
    ManifestGenerator.mergeFragmentEntry "/a/b/page" [] ⟨"/media_9.png", none, some "9"⟩ =
      mapSet []
        (PathUtils.getParentFromPath "/a/b/page" ++ mediaSuffixLiteral "/media_9.png")
        { Entry.mk "/media_9.png" none (some "9") with
          path := PathUtils.getParentFromPath "/a/b/page"
            ++ mediaSuffixLiteral "/media_9.png" } :=
  ⟨by decide, by decide,
    (C2_fragment_media_rebase_amended "/a/b/page" [] ⟨"/media_9.png", none, some "9"⟩
      (by decide)).1 (by decide)⟩

/-- The maximum of the timestamps carried by a list of entries
(0 when no entry carries one). -/
def tsMax (L : List Entry) : Nat := (L.filterMap Entry.timestamp).foldr max 0

/-- Specification-side observer: the fragment loop of `producedEntries`,
mirroring the loop of `processFragments` but collecting the recursively
built entries instead of merging them. -/
def producedFragments (plf : String → List String → Except Unit (List Entry)) :
    List String → List Entry → Except Unit (List Entry)
  | [], acc => Except.ok acc
  | fragmentPath :: rest, acc =>
    match plf fragmentPath [fragmentPath ++ ".plain.html"] with
    | Except.error e => Except.error e
    | Except.ok sub => producedFragments plf rest (acc ++ sub)

/-- Specification-side observer mirroring the control flow of
`createManifest` while collecting every entry built anywhere in the
recursion (the page entry and the kept resource entries of the page and,
recursively, of every fragment), before deduplication and rebasing.
This is the list of "emitted entries" the claims quantify over. -/
def producedEntries (fetchLM : Probe) (isFileDirty : DirtyCheck) (now : Nat)
    (host : String) (manifestMap : String → Option PageData)
    (isHtmlUpdatedMap : String → Bool) :
    Nat → String → List String → Except Unit (List Entry)
  | 0, _, _ => Except.error ()
  | fuel + 1, path, additionalAssets =>
    match manifestMap path with
    | none => Except.error ()
    | some data =>
      match ManifestGenerator.createEntries fetchLM isFileDirty now host data.path
          (ManifestGenerator.pageResourceSet data additionalAssets)
          (isHtmlUpdatedMap data.path) with
      | Except.error e => Except.error e
      | Except.ok (entries, _) =>
        producedFragments
          (fun p aa => producedEntries fetchLM isFileDirty now host manifestMap
            isHtmlUpdatedMap fuel p aa)
          data.fragments entries

theorem foldrMax_append (l1 l2 : List Nat) :
    (l1 ++ l2).foldr max 0 = max (l1.foldr max 0) (l2.foldr max 0) := by
  induction l1 with
  | nil => simp
  | cons a l ih => simp [ih, Nat.max_assoc]

theorem tsMax_append (L1 L2 : List Entry) :
    tsMax (L1 ++ L2) = max (tsMax L1) (tsMax L2) := by
  unfold tsMax
  rw [List.filterMap_append, foldrMax_append]

theorem le_foldrMax (a : Nat) (l : List Nat) (h : a ∈ l) : a ≤ l.foldr max 0 := by
  induction l with
  | nil => cases h
  | cons b l ih =>
    rcases List.mem_cons.mp h with h1 | h2
    · rw [h1]; exact Nat.le_max_left _ _
    · exact Nat.le_trans (ih h2) (Nat.le_max_right _ _)

theorem le_tsMax_of_mem (e : Entry) (L : List Entry) (t : Nat)
    (he : e ∈ L) (ht : e.timestamp = some t) : t ≤ tsMax L :=
  le_foldrMax t _ (List.mem_filterMap.mpr ⟨e, he, ht⟩)

theorem pageSeed_eq_tsMax (pe : Entry) :
    ManifestGenerator.pageSeed pe = tsMax [pe] := by
  unfold ManifestGenerator.pageSeed tsMax
  cases hts : pe.timestamp with
  | none => simp [List.filterMap, hts]
  | some t =>
    simp [List.filterMap, hts]
    by_cases h0 : t = 0
    · simp [h0]
    · simp [h0, Nat.pos_of_ne_zero h0]

theorem tsMax_single_none (p : String) (hh : Option String) :
    tsMax [Entry.mk p none hh] = 0 := rfl

theorem tsMax_single_some (p : String) (t : Nat) (hh : Option String) :
    tsMax [Entry.mk p (some t) hh] = t := by
  simp [tsMax]

/-- Each loop iteration of `createEntries` only appends to the entry list. -/
theorem processResource_fst_append (fetchLM : Probe) (isFileDirty : DirtyCheck)
    (host parentPath : String) (acc : List Entry × Nat) (r : String) :
    ∃ δ, (ManifestGenerator.processResource fetchLM isFileDirty host parentPath acc r).1
      = acc.1 ++ δ := by
  simp only [ManifestGenerator.processResource]
  cases fetchLM host (jsTrim r) with
  | ok date =>
    by_cases hm : ManifestGenerator.isMedia (jsTrim r) = true
    · exact ⟨[Entry.mk (parentPath ++ r) none
        (some (ManifestGenerator.getHashFromMedia (jsTrim r)))], by simp [hm]⟩
    · rw [Bool.not_eq_true] at hm
      cases date with
      | some t => exact ⟨[Entry.mk r (some t) none], by simp [hm]⟩
      | none => exact ⟨[Entry.mk r none none], by simp [hm]⟩
  | error e =>
    by_cases hd : isFileDirty (jsSubstringFrom (jsTrim r) 1) = true
    · by_cases hm : ManifestGenerator.isMedia (jsTrim r) = true
      · exact ⟨[Entry.mk (parentPath ++ r) none
          (some (ManifestGenerator.getHashFromMedia (jsTrim r)))], by simp [hd, hm]⟩
      · rw [Bool.not_eq_true] at hm
        exact ⟨[Entry.mk r none none], by simp [hd, hm]⟩
    · rw [Bool.not_eq_true] at hd
      exact ⟨[], by simp [hd]⟩

/-- Each loop iteration of `createEntries` keeps the accumulator equal to
the maximum timestamp of the accumulated entries. -/
theorem processResource_tsMax_step (fetchLM : Probe) (isFileDirty : DirtyCheck)
    (host parentPath : String) (acc : List Entry × Nat) (r : String)
    (h : acc.2 = tsMax acc.1) :
    (ManifestGenerator.processResource fetchLM isFileDirty host parentPath acc r).2
      = tsMax (ManifestGenerator.processResource fetchLM isFileDirty host parentPath acc r).1 := by
  simp only [ManifestGenerator.processResource]
  cases fetchLM host (jsTrim r) with
  | ok date =>
    by_cases hm : ManifestGenerator.isMedia (jsTrim r) = true
    · simp [hm, tsMax_append, tsMax_single_none, h]
    · rw [Bool.not_eq_true] at hm
      cases date with
      | some t => simp [hm, tsMax_append, tsMax_single_some, h]
      | none => simp [hm, tsMax_append, tsMax_single_none, h]
  | error e =>
    by_cases hd : isFileDirty (jsSubstringFrom (jsTrim r) 1) = true
    · by_cases hm : ManifestGenerator.isMedia (jsTrim r) = true
      · simp [hd, hm, tsMax_append, tsMax_single_none, h]
      · rw [Bool.not_eq_true] at hm
        simp [hd, hm, tsMax_append, tsMax_single_none, h]
    · rw [Bool.not_eq_true] at hd
      simp [hd, h]

/-- The resource fold of `createEntries` keeps the accumulator equal to
the maximum timestamp of the accumulated entries. -/
theorem foldl_processResource_tsMax (fetchLM : Probe) (isFileDirty : DirtyCheck)
    (host parentPath : String) :
    ∀ (rs : List String) (acc : List Entry × Nat), acc.2 = tsMax acc.1 →
      (rs.foldl (ManifestGenerator.processResource fetchLM isFileDirty host parentPath) acc).2
        = tsMax (rs.foldl (ManifestGenerator.processResource fetchLM isFileDirty host parentPath) acc).1 := by
  intro rs
  induction rs with
  | nil => intro acc h; exact h
  | cons r rest ih =>
    intro acc h
    rw [List.foldl_cons]
    exact ih _ (processResource_tsMax_step fetchLM isFileDirty host parentPath acc r h)

/-- The resource fold of `createEntries` only appends entries. -/
theorem foldl_processResource_fst (fetchLM : Probe) (isFileDirty : DirtyCheck)
    (host parentPath : String) :
    ∀ (rs : List String) (acc : List Entry × Nat),
      ∃ Δ, (rs.foldl (ManifestGenerator.processResource fetchLM isFileDirty host parentPath) acc).1
        = acc.1 ++ Δ := by
  intro rs
  induction rs with
  | nil => intro acc; exact ⟨[], by simp⟩
  | cons r rest ih =>
    intro acc
    rw [List.foldl_cons]
    obtain ⟨δ, hδ⟩ := processResource_fst_append fetchLM isFileDirty host parentPath acc r
    obtain ⟨Δ, hΔ⟩ := ih (ManifestGenerator.processResource fetchLM isFileDirty host parentPath acc r)
    exact ⟨δ ++ Δ, by rw [hΔ, hδ, List.append_assoc]⟩

/-- Characterization of a successful `createEntries` run: the returned
`lastModified` is the maximum timestamp of the returned entries, and the
page entry heads the list. -/
theorem createEntries_spec (fetchLM : Probe) (isFileDirty : DirtyCheck)
    (now : Nat) (host path : String) (pageResources : List String)
    (isHtmlUpdated : Bool) (es : List Entry) (lm : Nat)
    (hok : ManifestGenerator.createEntries fetchLM isFileDirty now host path
      pageResources isHtmlUpdated = Except.ok (es, lm)) :
    lm = tsMax es ∧
    ∃ pe Δ, es = pe :: Δ ∧
      ManifestGenerator.getPageJsonEntry fetchLM now host path isHtmlUpdated = Except.ok pe := by
  cases hpe : ManifestGenerator.getPageJsonEntry fetchLM now host path isHtmlUpdated with
  | error e =>
    rw [createEntries_err fetchLM isFileDirty now host path _ isHtmlUpdated e hpe] at hok
    cases hok
  | ok pe =>
    rw [createEntries_ok fetchLM isFileDirty now host path _ isHtmlUpdated pe hpe] at hok
    injection hok with hok
    constructor
    · have h2 := foldl_processResource_tsMax fetchLM isFileDirty host
        (PathUtils.getParentFromPath path) pageResources
        ([pe], ManifestGenerator.pageSeed pe) (pageSeed_eq_tsMax pe)
      rw [hok] at h2
      exact h2
    · obtain ⟨Δ, hΔ⟩ := foldl_processResource_fst fetchLM isFileDirty host
        (PathUtils.getParentFromPath path) pageResources ([pe], ManifestGenerator.pageSeed pe)
      rw [hok] at hΔ
      exact ⟨pe, Δ, hΔ, rfl⟩

/-!  One-step unfolding equations for `processFragments`, `createManifest`,
`producedFragments` and `producedEntries`. -/

theorem processFragments_nil (path : String)
    (cmf : String → List String → Except Unit (Manifest × Nat))
    (m : List (String × Entry)) (flm : Nat) :
    ManifestGenerator.processFragments path cmf [] m flm = Except.ok (m, flm) := rfl

theorem processFragments_cons_err (path : String)
    (cmf : String → List String → Except Unit (Manifest × Nat))
    (fp : String) (rest : List String) (m : List (String × Entry)) (flm : Nat)
    (e : Unit) (h : cmf fp [fp ++ ".plain.html"] = Except.error e) :
    ManifestGenerator.processFragments path cmf (fp :: rest) m flm = Except.error e := by
  simp only [ManifestGenerator.processFragments]
  rw [h]

theorem processFragments_cons_ok (path : String)
    (cmf : String → List String → Except Unit (Manifest × Nat))
    (fp : String) (rest : List String) (m : List (String × Entry)) (flm : Nat)
    (subMan : Manifest) (ts_f : Nat)
    (h : cmf fp [fp ++ ".plain.html"] = Except.ok (subMan, ts_f)) :
    ManifestGenerator.processFragments path cmf (fp :: rest) m flm
      = ManifestGenerator.processFragments path cmf rest
          (subMan.entries.foldl (ManifestGenerator.mergeFragmentEntry path) m)
          (max flm ts_f) := by
  simp only [ManifestGenerator.processFragments]
  rw [h]

theorem producedFragments_nil
    (plf : String → List String → Except Unit (List Entry)) (acc : List Entry) :
    producedFragments plf [] acc = Except.ok acc := rfl

theorem producedFragments_cons_err
    (plf : String → List String → Except Unit (List Entry))
    (fp : String) (rest : List String) (acc : List Entry) (e : Unit)
    (h : plf fp [fp ++ ".plain.html"] = Except.error e) :
    producedFragments plf (fp :: rest) acc = Except.error e := by
  simp only [producedFragments]
  rw [h]

theorem producedFragments_cons_ok
    (plf : String → List String → Except Unit (List Entry))
    (fp : String) (rest : List String) (acc : List Entry) (sub : List Entry)
    (h : plf fp [fp ++ ".plain.html"] = Except.ok sub) :
    producedFragments plf (fp :: rest) acc = producedFragments plf rest (acc ++ sub) := by
  simp only [producedFragments]
  rw [h]

theorem createManifest_zero (fetchLM : Probe) (isFileDirty : DirtyCheck)
    (now : Nat) (host : String) (manifestMap : String → Option PageData)
    (isHtmlUpdatedMap : String → Bool) (path : String) (aa : List String) :
    ManifestGenerator.createManifest fetchLM isFileDirty now host manifestMap
      isHtmlUpdatedMap 0 path aa = Except.error () := rfl

theorem createManifest_succ_none (fetchLM : Probe) (isFileDirty : DirtyCheck)
    (now : Nat) (host : String) (manifestMap : String → Option PageData)
    (isHtmlUpdatedMap : String → Bool) (fuel : Nat) (path : String) (aa : List String)
    (hdata : manifestMap path = none) :
    ManifestGenerator.createManifest fetchLM isFileDirty now host manifestMap
      isHtmlUpdatedMap (fuel + 1) path aa = Except.error () := by
  simp only [ManifestGenerator.createManifest, hdata]

theorem createManifest_succ_ce_err (fetchLM : Probe) (isFileDirty : DirtyCheck)
    (now : Nat) (host : String) (manifestMap : String → Option PageData)
    (isHtmlUpdatedMap : String → Bool) (fuel : Nat) (path : String) (aa : List String)
    (data : PageData) (e : Unit)
    (hdata : manifestMap path = some data)
    (hce : ManifestGenerator.createEntries fetchLM isFileDirty now host data.path
      (ManifestGenerator.pageResourceSet data aa) (isHtmlUpdatedMap data.path)
        = Except.error e) :
    ManifestGenerator.createManifest fetchLM isFileDirty now host manifestMap
      isHtmlUpdatedMap (fuel + 1) path aa = Except.error e := by
  simp only [ManifestGenerator.createManifest, hdata, hce]

theorem createManifest_succ_pf_err (fetchLM : Probe) (isFileDirty : DirtyCheck)
    (now : Nat) (host : String) (manifestMap : String → Option PageData)
    (isHtmlUpdatedMap : String → Bool) (fuel : Nat) (path : String) (aa : List String)
    (data : PageData) (entries : List Entry) (lastModified : Nat) (e : Unit)
    (hdata : manifestMap path = some data)
    (hce : ManifestGenerator.createEntries fetchLM isFileDirty now host data.path
      (ManifestGenerator.pageResourceSet data aa) (isHtmlUpdatedMap data.path)
        = Except.ok (entries, lastModified))
    (hpf : ManifestGenerator.processFragments path
      (fun p paa => ManifestGenerator.createManifest fetchLM isFileDirty now host
        manifestMap isHtmlUpdatedMap fuel p paa)
      data.fragments (entries.foldl (fun m e => mapSet m e.path e) []) 0
        = Except.error e) :
    ManifestGenerator.createManifest fetchLM isFileDirty now host manifestMap
      isHtmlUpdatedMap (fuel + 1) path aa = Except.error e := by
  simp only [ManifestGenerator.createManifest, hdata, hce, hpf]

theorem createManifest_succ_ok (fetchLM : Probe) (isFileDirty : DirtyCheck)
    (now : Nat) (host : String) (manifestMap : String → Option PageData)
    (isHtmlUpdatedMap : String → Bool) (fuel : Nat) (path : String) (aa : List String)
    (data : PageData) (entries : List Entry) (lastModified : Nat)
    (allEntries : List (String × Entry)) (fragmentsLastModified : Nat)
    (hdata : manifestMap path = some data)
    (hce : ManifestGenerator.createEntries fetchLM isFileDirty now host data.path
      (ManifestGenerator.pageResourceSet data aa) (isHtmlUpdatedMap data.path)
        = Except.ok (entries, lastModified))
    (hpf : ManifestGenerator.processFragments path
      (fun p paa => ManifestGenerator.createManifest fetchLM isFileDirty now host
        manifestMap isHtmlUpdatedMap fuel p paa)
      data.fragments (entries.foldl (fun m e => mapSet m e.path e) []) 0
        = Except.ok (allEntries, fragmentsLastModified)) :
    ManifestGenerator.createManifest fetchLM isFileDirty now host manifestMap
      isHtmlUpdatedMap (fuel + 1) path aa
      = Except.ok
          ({ version := "3.0",
             timestamp := max lastModified fragmentsLastModified,
             entries := allEntries.map Prod.snd,
             contentDelivery :=
               { providers := [{ name := "franklin", endpoint := "/" }],
                 defaultProvider := "franklin" } },
           max lastModified fragmentsLastModified) := by
  simp only [ManifestGenerator.createManifest, hdata, hce, hpf]

theorem producedEntries_zero (fetchLM : Probe) (isFileDirty : DirtyCheck)
    (now : Nat) (host : String) (manifestMap : String → Option PageData)
    (isHtmlUpdatedMap : String → Bool) (path : String) (aa : List String) :
    producedEntries fetchLM isFileDirty now host manifestMap isHtmlUpdatedMap
      0 path aa = Except.error () := rfl

theorem producedEntries_succ_none (fetchLM : Probe) (isFileDirty : DirtyCheck)
    (now : Nat) (host : String) (manifestMap : String → Option PageData)
    (isHtmlUpdatedMap : String → Bool) (fuel : Nat) (path : String) (aa : List String)
    (hdata : manifestMap path = none) :
    producedEntries fetchLM isFileDirty now host manifestMap isHtmlUpdatedMap
      (fuel + 1) path aa = Except.error () := by
  simp only [producedEntries, hdata]

theorem producedEntries_succ_ce_err (fetchLM : Probe) (isFileDirty : DirtyCheck)
    (now : Nat) (host : String) (manifestMap : String → Option PageData)
    (isHtmlUpdatedMap : String → Bool) (fuel : Nat) (path : String) (aa : List String)
    (data : PageData) (e : Unit)
    (hdata : manifestMap path = some data)
    (hce : ManifestGenerator.createEntries fetchLM isFileDirty now host data.path
      (ManifestGenerator.pageResourceSet data aa) (isHtmlUpdatedMap data.path)
        = Except.error e) :
    producedEntries fetchLM isFileDirty now host manifestMap isHtmlUpdatedMap
      (fuel + 1) path aa = Except.error e := by
  simp only [producedEntries, hdata, hce]

theorem producedEntries_succ_ok (fetchLM : Probe) (isFileDirty : DirtyCheck)
    (now : Nat) (host : String) (manifestMap : String → Option PageData)
    (isHtmlUpdatedMap : String → Bool) (fuel : Nat) (path : String) (aa : List String)
    (data : PageData) (entries : List Entry) (lastModified : Nat)
    (hdata : manifestMap path = some data)
    (hce : ManifestGenerator.createEntries fetchLM isFileDirty now host data.path
      (ManifestGenerator.pageResourceSet data aa) (isHtmlUpdatedMap data.path)
        = Except.ok (entries, lastModified)) :
    producedEntries fetchLM isFileDirty now host manifestMap isHtmlUpdatedMap
      (fuel + 1) path aa
      = producedFragments
          (fun p paa => producedEntries fetchLM isFileDirty now host manifestMap
            isHtmlUpdatedMap fuel p paa)
          data.fragments entries := by
  simp only [producedEntries, hdata, hce]

/-- The per-call relation between a `createManifest` result and a
`producedEntries` result (claims C1 and C9): they fail together, and on
success the manifest timestamp is the maximum timestamp of the produced
entries and equals the returned aggregate. -/
def ProducedRel (cmr : Except Unit (Manifest × Nat))
    (plr : Except Unit (List Entry)) : Prop :=
  (∀ e, cmr = Except.error e → ∃ e2, plr = Except.error e2) ∧
  (∀ man ts, cmr = Except.ok (man, ts) →
    ∃ L, plr = Except.ok L ∧ man.timestamp = tsMax L ∧ ts = man.timestamp)

/-- The fragment loops of `createManifest` and `producedEntries` preserve
`ProducedRel`: the final `fragmentsLastModified` is the initial one maxed
with the maximum timestamp of the entries the loop collects. -/
theorem processFragments_produced (path : String)
    (cmf : String → List String → Except Unit (Manifest × Nat))
    (plf : String → List String → Except Unit (List Entry))
    (hrel : ∀ p aa, ProducedRel (cmf p aa) (plf p aa)) :
    ∀ (frags : List String) (m : List (String × Entry)) (flm : Nat) (acc : List Entry),
      (∀ e, ManifestGenerator.processFragments path cmf frags m flm = Except.error e →
        ∃ e2, producedFragments plf frags acc = Except.error e2) ∧
      (∀ m2 flm2,
        ManifestGenerator.processFragments path cmf frags m flm = Except.ok (m2, flm2) →
        ∃ L2 Δ, producedFragments plf frags acc = Except.ok L2 ∧ L2 = acc ++ Δ ∧
          flm2 = max flm (tsMax Δ)) := by
  intro frags
  induction frags with
  | nil =>
    intro m flm acc
    constructor
    · intro e he
      rw [processFragments_nil] at he
      cases he
    · intro m2 flm2 h
      rw [processFragments_nil] at h
      injection h with h2
      injection h2 with h3 h4
      exact ⟨acc, [], producedFragments_nil plf acc, by simp,
        by rw [← h4]; simp [tsMax]⟩
  | cons fp rest ih =>
    intro m flm acc
    rcases hrel fp [fp ++ ".plain.html"] with ⟨hrelErr, hrelOk⟩
    cases hcm : cmf fp [fp ++ ".plain.html"] with
    | error e =>
      obtain ⟨e2, hpl⟩ := hrelErr e hcm
      constructor
      · intro e3 _
        exact ⟨e2, producedFragments_cons_err plf fp rest acc e2 hpl⟩
      · intro m2 flm2 h
        rw [processFragments_cons_err path cmf fp rest m flm e hcm] at h
        cases h
    | ok pr =>
      obtain ⟨subMan, ts_f⟩ := pr
      obtain ⟨subL, hpl, hts1, hts2⟩ := hrelOk subMan ts_f hcm
      have hpfx := processFragments_cons_ok path cmf fp rest m flm subMan ts_f hcm
      have hplx := producedFragments_cons_ok plf fp rest acc subL hpl
      rcases ih (subMan.entries.foldl (ManifestGenerator.mergeFragmentEntry path) m)
        (max flm ts_f) (acc ++ subL) with ⟨ihErr, ihOk⟩
      constructor
      · intro e3 he
        rw [hpfx] at he
        obtain ⟨e4, hprod⟩ := ihErr e3 he
        exact ⟨e4, by rw [hplx]; exact hprod⟩
      · intro m2 flm2 h
        rw [hpfx] at h
        obtain ⟨L2, Δ2, hprod, hL2, hflm2⟩ := ihOk m2 flm2 h
        refine ⟨L2, subL ++ Δ2, by rw [hplx]; exact hprod,
          by rw [hL2, List.append_assoc], ?_⟩
        rw [hflm2, tsMax_append, ← hts1, ← hts2, Nat.max_assoc]

/-- Master lemma for claims C1 and C9: at every fuel, `createManifest` and
`producedEntries` are related by `ProducedRel`. -/
theorem createManifest_producedRel (fetchLM : Probe) (isFileDirty : DirtyCheck)
    (now : Nat) (host : String) (manifestMap : String → Option PageData)
    (isHtmlUpdatedMap : String → Bool) :
    ∀ (fuel : Nat) (path : String) (aa : List String),
      ProducedRel
        (ManifestGenerator.createManifest fetchLM isFileDirty now host manifestMap
          isHtmlUpdatedMap fuel path aa)
        (producedEntries fetchLM isFileDirty now host manifestMap isHtmlUpdatedMap
          fuel path aa) := by
  intro fuel
  induction fuel with
  | zero =>
    intro path aa
    constructor
    · intro e _
      exact ⟨(), producedEntries_zero fetchLM isFileDirty now host manifestMap
        isHtmlUpdatedMap path aa⟩
    · intro man ts h
      rw [createManifest_zero] at h
      cases h
  | succ fuel ih =>
    intro path aa
    cases hdata : manifestMap path with
    | none =>
      constructor
      · intro e _
        exact ⟨(), producedEntries_succ_none fetchLM isFileDirty now host manifestMap
          isHtmlUpdatedMap fuel path aa hdata⟩
      · intro man ts h
        rw [createManifest_succ_none fetchLM isFileDirty now host manifestMap
          isHtmlUpdatedMap fuel path aa hdata] at h
        cases h
    | some data =>
      cases hce : ManifestGenerator.createEntries fetchLM isFileDirty now host data.path
          (ManifestGenerator.pageResourceSet data aa) (isHtmlUpdatedMap data.path) with
      | error e =>
        constructor
        · intro e3 _
          exact ⟨e, producedEntries_succ_ce_err fetchLM isFileDirty now host manifestMap
            isHtmlUpdatedMap fuel path aa data e hdata hce⟩
        · intro man ts h
          rw [createManifest_succ_ce_err fetchLM isFileDirty now host manifestMap
            isHtmlUpdatedMap fuel path aa data e hdata hce] at h
          cases h
      | ok pr =>
        obtain ⟨entries, lastModified⟩ := pr
        rcases processFragments_produced path
          (fun p paa => ManifestGenerator.createManifest fetchLM isFileDirty now host
            manifestMap isHtmlUpdatedMap fuel p paa)
          (fun p paa => producedEntries fetchLM isFileDirty now host manifestMap
            isHtmlUpdatedMap fuel p paa)
          (fun p paa => ih p paa)
          data.fragments (entries.foldl (fun m e => mapSet m e.path e) []) 0 entries
          with ⟨loopErr, loopOk⟩
        constructor
        · intro e he
          cases hpf : ManifestGenerator.processFragments path
              (fun p paa => ManifestGenerator.createManifest fetchLM isFileDirty now host
                manifestMap isHtmlUpdatedMap fuel p paa)
              data.fragments (entries.foldl (fun m e => mapSet m e.path e) []) 0 with
          | error e2 =>
            obtain ⟨e4, hprod⟩ := loopErr e2 hpf
            exact ⟨e4, by
              rw [producedEntries_succ_ok fetchLM isFileDirty now host manifestMap
                isHtmlUpdatedMap fuel path aa data entries lastModified hdata hce]
              exact hprod⟩
          | ok pr2 =>
            obtain ⟨allEntries, flm⟩ := pr2
            rw [createManifest_succ_ok fetchLM isFileDirty now host manifestMap
              isHtmlUpdatedMap fuel path aa data entries lastModified allEntries flm
              hdata hce hpf] at he
            cases he
        · intro man ts h
          cases hpf : ManifestGenerator.processFragments path
              (fun p paa => ManifestGenerator.createManifest fetchLM isFileDirty now host
                manifestMap isHtmlUpdatedMap fuel p paa)
              data.fragments (entries.foldl (fun m e => mapSet m e.path e) []) 0 with
          | error e2 =>
            rw [createManifest_succ_pf_err fetchLM isFileDirty now host manifestMap
              isHtmlUpdatedMap fuel path aa data entries lastModified e2 hdata hce hpf] at h
            cases h
          | ok pr2 =>
            obtain ⟨allEntries, flm⟩ := pr2
            rw [createManifest_succ_ok fetchLM isFileDirty now host manifestMap
              isHtmlUpdatedMap fuel path aa data entries lastModified allEntries flm
              hdata hce hpf] at h
            injection h with h2
            injection h2 with hman hts
            obtain ⟨L2, Δ, hprod, hL2, hflm⟩ := loopOk allEntries flm hpf
            refine ⟨L2, by
              rw [producedEntries_succ_ok fetchLM isFileDirty now host manifestMap
                isHtmlUpdatedMap fuel path aa data entries lastModified hdata hce]
              exact hprod, ?_, ?_⟩
            · rw [← hman]
              show max lastModified flm = tsMax L2
              rw [hL2, tsMax_append, hflm]
              rw [(createEntries_spec fetchLM isFileDirty now host data.path
                (ManifestGenerator.pageResourceSet data aa) (isHtmlUpdatedMap data.path)
                entries lastModified hce).1]
              rw [Nat.zero_max]
            · rw [← hts, ← hman]

/-- `producedFragments` only ever appends to its accumulator. -/
theorem producedFragments_mono (plf : String → List String → Except Unit (List Entry)) :
    ∀ (frags : List String) (acc L : List Entry),
      producedFragments plf frags acc = Except.ok L → ∃ Δ, L = acc ++ Δ := by
  intro frags
  induction frags with
  | nil =>
    intro acc L h
    rw [producedFragments_nil] at h
    injection h with h2
    exact ⟨[], by rw [← h2]; simp⟩
  | cons fp rest ih =>
    intro acc L h
    cases hpl : plf fp [fp ++ ".plain.html"] with
    | error e =>
      rw [producedFragments_cons_err plf fp rest acc e hpl] at h
      cases h
    | ok sub =>
      rw [producedFragments_cons_ok plf fp rest acc sub hpl] at h
      obtain ⟨Δ, hΔ⟩ := ih (acc ++ sub) L h
      exact ⟨sub ++ Δ, by rw [hΔ, List.append_assoc]⟩

/-- Claim C1 (confirmed): the timestamp of the manifest returned by
`createManifest` equals the maximum over the timestamps of all emitted
entries — the page entry, every resource entry that was built, and every
fragment-contributed entry, collected by `producedEntries`; entries lacking
a timestamp do not participate (`tsMax` folds `max` over the present
timestamps only, from 0).  It also equals the returned aggregate, and is
at least the page entry's timestamp when that entry carries one. -/
theorem C1_timestamp_is_produced_max (fetchLM : Probe) (isFileDirty : DirtyCheck)
    (now : Nat) (host : String) (manifestMap : String → Option PageData)
    (isHtmlUpdatedMap : String → Bool) (fuel : Nat) (path : String) (aa : List String)
    (man : Manifest) (ts : Nat)
    (hok : ManifestGenerator.createManifest fetchLM isFileDirty now host manifestMap
      isHtmlUpdatedMap fuel path aa = Except.ok (man, ts)) :
    ∃ L, producedEntries fetchLM isFileDirty now host manifestMap isHtmlUpdatedMap
        fuel path aa = Except.ok L ∧
      man.timestamp = tsMax L ∧ ts = man.timestamp ∧
      ∀ data pe t, manifestMap path = some data →
        ManifestGenerator.getPageJsonEntry fetchLM now host data.path
          (isHtmlUpdatedMap data.path) = Except.ok pe →
        pe.timestamp = some t → t ≤ man.timestamp := by
  obtain ⟨L, hprod, h1, h2⟩ := (createManifest_producedRel fetchLM isFileDirty now host
    manifestMap isHtmlUpdatedMap fuel path aa).2 man ts hok
  refine ⟨L, hprod, h1, h2, ?_⟩
  intro data pe t hdata hpe hts
  cases fuel with
  | zero =>
    rw [createManifest_zero] at hok
    cases hok
  | succ fuel =>
    cases hce : ManifestGenerator.createEntries fetchLM isFileDirty now host data.path
        (ManifestGenerator.pageResourceSet data aa) (isHtmlUpdatedMap data.path) with
    | error e =>
      rw [createManifest_succ_ce_err fetchLM isFileDirty now host manifestMap
        isHtmlUpdatedMap fuel path aa data e hdata hce] at hok
      cases hok
    | ok pr =>
      obtain ⟨entries, lastModified⟩ := pr
      obtain ⟨hlm, pe2, Δ0, hes, hpe2⟩ := createEntries_spec fetchLM isFileDirty now host
        data.path (ManifestGenerator.pageResourceSet data aa) (isHtmlUpdatedMap data.path)
        entries lastModified hce
      have hpe3 : pe2 = pe := by
        rw [hpe2] at hpe
        injection hpe
      subst hpe3
      rw [producedEntries_succ_ok fetchLM isFileDirty now host manifestMap
        isHtmlUpdatedMap fuel path aa data entries lastModified hdata hce] at hprod
      obtain ⟨Δ1, hL⟩ := producedFragments_mono _ _ _ _ hprod
      have hmem : pe2 ∈ L := by
        rw [hL, hes]
        exact List.mem_append_left _ (List.mem_cons_self _ _)
      rw [h1]
      exact le_tsMax_of_mem pe2 L t hmem hts

/-- Probe fixture for the C1 and C9 witnesses: the page has a
last-modified header, everything else has none. -/
def exC1Probe : Probe := fun _ p =>
  if p = "/site/page.html" then Except.ok (some 1704067200000) else Except.ok none

/-- Page fixture for the C1 witness: one normalized media asset. -/
def exC1Map : String → Option PageData := fun p =>
  if p = "/site/page" then
    some { path := "/site/page", assets := ["./media_1234.png?x=1"] }
  else none

/-- The manifest the C1 witness run returns. -/
def exC1Man : Manifest :=
  { version := "3.0",
    timestamp := 1704067200000,
    entries := [⟨"/site/page.html", some 1704067200000, none⟩,
                ⟨"/site/media_1234.png", none, some "1234"⟩],
    contentDelivery :=
      { providers := [{ name := "franklin", endpoint := "/" }],
        defaultProvider := "franklin" } }

/-- Witness for C1 on the spec's own end-to-end scenario. -/
theorem C1_timestamp_is_produced_max_witness :
    ∃ L, producedEntries exC1Probe (fun _ => false) 7 "h" exC1Map (fun _ => false)
        1 "/site/page" [] = Except.ok L ∧
      exC1Man.timestamp = tsMax L ∧ 1704067200000 = exC1Man.timestamp ∧
      ∀ data pe t, exC1Map "/site/page" = some data →
        ManifestGenerator.getPageJsonEntry exC1Probe 7 "h" data.path
          ((fun _ => false) data.path) = Except.ok pe →
        pe.timestamp = some t → t ≤ exC1Man.timestamp :=
  C1_timestamp_is_produced_max exC1Probe (fun _ => false) 7 "h" exC1Map (fun _ => false)
    1 "/site/page" [] exC1Man 1704067200000 (by decide)

/-- Claim C9 (confirmed): when no emitted entry carries a timestamp, both
the manifest timestamp and the returned aggregate equal exactly 0 (the
aggregate is a `Nat`, seeded at 0 and only ever raised by `max`). -/
theorem C9_zero_when_no_timestamps (fetchLM : Probe) (isFileDirty : DirtyCheck)
    (now : Nat) (host : String) (manifestMap : String → Option PageData)
    (isHtmlUpdatedMap : String → Bool) (fuel : Nat) (path : String) (aa : List String)
    (man : Manifest) (ts : Nat)
    (hok : ManifestGenerator.createManifest fetchLM isFileDirty now host manifestMap
      isHtmlUpdatedMap fuel path aa = Except.ok (man, ts)) :
    ∃ L, producedEntries fetchLM isFileDirty now host manifestMap isHtmlUpdatedMap
        fuel path aa = Except.ok L ∧
      ((∀ e ∈ L, e.timestamp = none) → man.timestamp = 0 ∧ ts = 0) := by
  obtain ⟨L, hprod, h1, h2⟩ := (createManifest_producedRel fetchLM isFileDirty now host
    manifestMap isHtmlUpdatedMap fuel path aa).2 man ts hok
  refine ⟨L, hprod, fun hall => ?_⟩
  have hz : tsMax L = 0 := by
    unfold tsMax
    rw [List.filterMap_eq_nil_iff.mpr hall]
    rfl
  exact ⟨by rw [h1, hz], by rw [h2, h1, hz]⟩

/-- Page fixture for the C9 witness: a bare page, probe never returns a
last-modified header, no update flag. -/
def exC9Map : String → Option PageData := fun p =>
  if p = "/p" then some { path := "/p" } else none

/-- Witness for C9 at a run in which no entry carries a timestamp. -/
theorem C9_zero_when_no_timestamps_witness :
    ∃ L, producedEntries (fun _ _ => Except.ok none) (fun _ => false) 7 "h" exC9Map
        (fun _ => false) 1 "/p" [] = Except.ok L ∧
      ((∀ e ∈ L, e.timestamp = none) →
        (Manifest.mk "3.0" 0 [⟨"/p.html", none, none⟩]
          ⟨[⟨"franklin", "/"⟩], "franklin"⟩).timestamp = 0 ∧ 0 = 0) :=
  C9_zero_when_no_timestamps (fun _ _ => Except.ok none) (fun _ => false) 7 "h" exC9Map
    (fun _ => false) 1 "/p" []
    (Manifest.mk "3.0" 0 [⟨"/p.html", none, none⟩] ⟨[⟨"franklin", "/"⟩], "franklin"⟩) 0
    (by decide)

/-- The entry-map fold of `createManifest` (`entries.forEach(set)`), as a
named function for stating the dedup-by-path claims. -/
def buildMap (m : List (String × Entry)) (L : List Entry) : List (String × Entry) :=
  L.foldl (fun m e => mapSet m e.path e) m

/-- Lookup in the insertion-ordered entry map. -/
def getVal (m : List (String × Entry)) (k : String) : Option Entry :=
  (m.find? (fun p => p.1 == k)).map Prod.snd

theorem getVal_mapSet_self (m : List (String × Entry)) (k : String) (v : Entry) :
    getVal (mapSet m k v) k = some v := by
  unfold mapSet getVal
  by_cases hmem : k ∈ m.map Prod.fst
  · rw [if_pos hmem]
    induction m with
    | nil => cases hmem
    | cons p ps ih =>
      by_cases hp : p.1 = k
      · simp [List.find?, hp]
      · have hmem2 : k ∈ ps.map Prod.fst := by
          rcases List.mem_cons.mp hmem with h1 | h2
          · exact absurd h1.symm hp
          · exact h2
        have hne : (p.1 == k) = false := by
          rw [beq_eq_false_iff_ne]
          exact hp
        simp only [List.map_cons, List.find?, if_neg hp, hne]
        exact ih hmem2
  · rw [if_neg hmem]
    induction m with
    | nil => simp [List.find?]
    | cons p ps ih =>
      have hp : p.1 ≠ k := by
        intro he
        exact hmem (by simp [he])
      have hne : (p.1 == k) = false := by
        rw [beq_eq_false_iff_ne]
        exact hp
      have hmem2 : k ∉ ps.map Prod.fst := by
        intro hk
        exact hmem (by simp [hk])
      simp only [List.cons_append, List.find?, hne]
      exact ih hmem2

theorem getVal_mapSet_ne (m : List (String × Entry)) (k : String) (v : Entry)
    (k2 : String) (h : k2 ≠ k) : getVal (mapSet m k v) k2 = getVal m k2 := by
  unfold mapSet getVal
  by_cases hmem : k ∈ m.map Prod.fst
  · rw [if_pos hmem]
    clear hmem
    induction m with
    | nil => rfl
    | cons p ps ih =>
      by_cases hp : p.1 = k
      · have h1 : (k == k2) = false := by
          rw [beq_eq_false_iff_ne]
          exact fun he => h (he.symm)
        have h2 : (p.1 == k2) = false := by
          rw [beq_eq_false_iff_ne]
          rw [hp]
          exact fun he => h (he.symm)
        simp only [List.map_cons, List.find?, if_pos hp, h1, h2]
        exact ih
      · simp only [List.map_cons, List.find?, if_neg hp]
        cases hpk : (p.1 == k2) with
        | true => simp [List.find?, hpk]
        | false => simp only [List.find?, hpk]; exact ih
  · rw [if_neg hmem]
    clear hmem
    induction m with
    | nil =>
      have h1 : (k == k2) = false := by
        rw [beq_eq_false_iff_ne]
        exact fun he => h (he.symm)
      simp [List.find?, h1]
    | cons p ps ih =>
      cases hpk : (p.1 == k2) with
      | true => simp [List.find?, hpk]
      | false => simp only [List.cons_append, List.find?, hpk]; exact ih

theorem mapSet_keys (m : List (String × Entry)) (k : String) (v : Entry) :
    (mapSet m k v).map Prod.fst
      = if k ∈ m.map Prod.fst then m.map Prod.fst else m.map Prod.fst ++ [k] := by
  unfold mapSet
  by_cases hmem : k ∈ m.map Prod.fst
  · rw [if_pos hmem, if_pos hmem, List.map_map]
    apply List.map_congr_left
    intro p _
    by_cases hp : p.1 = k
    · simp [hp]
    · simp [hp]
  · rw [if_neg hmem, if_neg hmem]
    simp

theorem mapSet_keys_nodup (m : List (String × Entry)) (k : String) (v : Entry)
    (h : (m.map Prod.fst).Nodup) : ((mapSet m k v).map Prod.fst).Nodup := by
  rw [mapSet_keys]
  by_cases hmem : k ∈ m.map Prod.fst
  · rw [if_pos hmem]; exact h
  · rw [if_neg hmem]
    simp [List.nodup_append, h, hmem]

theorem mapSet_vpath (m : List (String × Entry)) (k : String) (v : Entry)
    (h : ∀ p ∈ m, p.2.path = p.1) (hv : v.path = k) :
    ∀ p ∈ mapSet m k v, p.2.path = p.1 := by
  unfold mapSet
  by_cases hmem : k ∈ m.map Prod.fst
  · rw [if_pos hmem]
    intro p hp
    obtain ⟨q, hq, hpq⟩ := List.mem_map.mp hp
    by_cases hq1 : q.1 = k
    · rw [if_pos hq1] at hpq
      rw [← hpq]
      exact hv
    · rw [if_neg hq1] at hpq
      rw [← hpq]
      exact h q hq
  · rw [if_neg hmem]
    intro p hp
    rcases List.mem_append.mp hp with h1 | h2
    · exact h p h1
    · rw [List.mem_singleton.mp h2]
      exact hv

theorem last_filter_cons {α} [DecidableEq α] (a : α) (l : List α) :
    (a :: l).getLast? = if l = [] then some a else l.getLast? := by
  cases l with
  | nil => rfl
  | cons b t => simp [List.getLast?_cons_cons]

/-- Lookup in the built map is the last entry with that path in the fold
sequence (last-wins dedup), falling back to the initial map. -/
theorem buildMap_getVal :
    ∀ (L : List Entry) (m : List (String × Entry)) (k : String),
      getVal (buildMap m L) k
        = match (L.filter (fun e => e.path == k)).getLast? with
          | some e => some e
          | none => getVal m k := by
  intro L
  induction L with
  | nil => intro m k; rfl
  | cons e rest ih =>
    intro m k
    have hstep : buildMap m (e :: rest) = buildMap (mapSet m e.path e) rest := rfl
    rw [hstep, ih]
    by_cases he : e.path = k
    · have hbe : (e.path == k) = true := by
        rw [beq_iff_eq]
        exact he
      rw [List.filter_cons]
      simp only [hbe, if_true]
      rw [last_filter_cons]
      by_cases hfe : rest.filter (fun x => x.path == k) = []
      · rw [if_pos hfe, hfe]
        simp only [List.getLast?_nil]
        rw [← he, getVal_mapSet_self]
      · rw [if_neg hfe]
        cases hl : (rest.filter (fun x => x.path == k)).getLast? with
        | some e2 => rfl
        | none =>
          rw [List.getLast?_eq_none_iff] at hl
          exact absurd hl hfe
    · have hbe : (e.path == k) = false := by
        rw [beq_eq_false_iff_ne]
        exact he
      rw [List.filter_cons]
      simp only [hbe, Bool.false_eq_true, if_false]
      cases hl : (rest.filter (fun x => x.path == k)).getLast? with
      | some e2 => rfl
      | none =>
        rw [getVal_mapSet_ne m e.path e k (fun h2 => he h2.symm)]

/-- The built map has pairwise distinct keys and each value's path equals
its key (given an initial map with those invariants). -/
theorem buildMap_invariants :
    ∀ (L : List Entry) (m : List (String × Entry)),
      (m.map Prod.fst).Nodup → (∀ p ∈ m, p.2.path = p.1) →
      ((buildMap m L).map Prod.fst).Nodup ∧ ∀ p ∈ buildMap m L, p.2.path = p.1 := by
  intro L
  induction L with
  | nil => intro m h1 h2; exact ⟨h1, h2⟩
  | cons e rest ih =>
    intro m h1 h2
    exact ih (mapSet m e.path e) (mapSet_keys_nodup m e.path e h1)
      (mapSet_vpath m e.path e h2 rfl)

/-- A value of the map is found at its own path key (keys distinct and
values keyed by their paths). -/
theorem getVal_of_mem_values :
    ∀ (m : List (String × Entry)), (m.map Prod.fst).Nodup →
      (∀ p ∈ m, p.2.path = p.1) →
      ∀ e, e ∈ m.map Prod.snd → getVal m e.path = some e := by
  intro m
  induction m with
  | nil => intro _ _ e he; cases he
  | cons p ps ih =>
    intro hnd hvp e he
    rcases List.mem_cons.mp he with h1 | h2
    · have hp1 : p.1 = e.path := by
        rw [h1]
        exact (hvp p (List.mem_cons_self _ _)).symm
      unfold getVal
      simp [List.find?, hp1, h1]
    · have hkey : e.path ∈ ps.map Prod.fst := by
        obtain ⟨q, hq, hqe⟩ := List.mem_map.mp h2
        have := hvp q (List.mem_cons_of_mem _ hq)
        rw [hqe] at this
        rw [this]
        exact List.mem_map.mpr ⟨q, hq, rfl⟩
      have hp1 : (p.1 == e.path) = false := by
        rw [beq_eq_false_iff_ne]
        intro hcontra
        have := (List.nodup_cons.mp hnd).1
        rw [hcontra] at this
        exact this hkey
      have hrec := ih (List.nodup_cons.mp hnd).2
        (fun q hq => hvp q (List.mem_cons_of_mem _ hq)) e h2
      unfold getVal at hrec ⊢
      simp only [List.find?, hp1]
      exact hrec

/-- A found value is a value of the map. -/
theorem getVal_mem (m : List (String × Entry)) (k : String) (v : Entry)
    (h : getVal m k = some v) : v ∈ m.map Prod.snd := by
  unfold getVal at h
  cases hf : m.find? (fun p => p.1 == k) with
  | none => rw [hf] at h; cases h
  | some p =>
    rw [hf] at h
    injection h with h2
    rw [← h2]
    exact List.mem_map.mpr ⟨p, List.mem_of_find?_eq_some hf, rfl⟩

/-- Specification-side observer: the fragment loop of `mergedSeq`,
collecting the rebased fragment-contributed entries in merge order. -/
def mergedFragments (path : String)
    (cmf : String → List String → Except Unit (Manifest × Nat)) :
    List String → List Entry → Except Unit (List Entry)
  | [], acc => Except.ok acc
  | fragmentPath :: rest, acc =>
    match cmf fragmentPath [fragmentPath ++ ".plain.html"] with
    | Except.error e => Except.error e
    | Except.ok (subManifest, _) =>
      mergedFragments path cmf rest
        (acc ++ subManifest.entries.map (ManifestGenerator.rebaseFragmentEntry path))

/-- Specification-side observer: the full sequence of entries merged into
the manifest map of `createManifest`, in traversal order — the page entry,
then the resource entries, then each fragment's manifest entries after
rebasing, fragment by fragment.  The claims about dedup order quantify
over this sequence. -/
def mergedSeq (fetchLM : Probe) (isFileDirty : DirtyCheck) (now : Nat)
    (host : String) (manifestMap : String → Option PageData)
    (isHtmlUpdatedMap : String → Bool) :
    Nat → String → List String → Except Unit (List Entry)
  | 0, _, _ => Except.error ()
  | fuel + 1, path, additionalAssets =>
    match manifestMap path with
    | none => Except.error ()
    | some data =>
      match ManifestGenerator.createEntries fetchLM isFileDirty now host data.path
          (ManifestGenerator.pageResourceSet data additionalAssets)
          (isHtmlUpdatedMap data.path) with
      | Except.error e => Except.error e
      | Except.ok (entries, _) =>
        mergedFragments path
          (fun p aa => ManifestGenerator.createManifest fetchLM isFileDirty now host
            manifestMap isHtmlUpdatedMap fuel p aa)
          data.fragments entries

theorem mergedFragments_nil (path : String)
    (cmf : String → List String → Except Unit (Manifest × Nat)) (acc : List Entry) :
    mergedFragments path cmf [] acc = Except.ok acc := rfl

theorem mergedFragments_cons_err (path : String)
    (cmf : String → List String → Except Unit (Manifest × Nat))
    (fp : String) (rest : List String) (acc : List Entry) (e : Unit)
    (h : cmf fp [fp ++ ".plain.html"] = Except.error e) :
    mergedFragments path cmf (fp :: rest) acc = Except.error e := by
  simp only [mergedFragments]
  rw [h]

theorem mergedFragments_cons_ok (path : String)
    (cmf : String → List String → Except Unit (Manifest × Nat))
    (fp : String) (rest : List String) (acc : List Entry)
    (subMan : Manifest) (ts_f : Nat)
    (h : cmf fp [fp ++ ".plain.html"] = Except.ok (subMan, ts_f)) :
    mergedFragments path cmf (fp :: rest) acc
      = mergedFragments path cmf rest
          (acc ++ subMan.entries.map (ManifestGenerator.rebaseFragmentEntry path)) := by
  simp only [mergedFragments]
  rw [h]

theorem mergedSeq_succ_ok (fetchLM : Probe) (isFileDirty : DirtyCheck)
    (now : Nat) (host : String) (manifestMap : String → Option PageData)
    (isHtmlUpdatedMap : String → Bool) (fuel : Nat) (path : String) (aa : List String)
    (data : PageData) (entries : List Entry) (lastModified : Nat)
    (hdata : manifestMap path = some data)
    (hce : ManifestGenerator.createEntries fetchLM isFileDirty now host data.path
      (ManifestGenerator.pageResourceSet data aa) (isHtmlUpdatedMap data.path)
        = Except.ok (entries, lastModified)) :
    mergedSeq fetchLM isFileDirty now host manifestMap isHtmlUpdatedMap
      (fuel + 1) path aa
      = mergedFragments path
          (fun p paa => ManifestGenerator.createManifest fetchLM isFileDirty now host
            manifestMap isHtmlUpdatedMap fuel p paa)
          data.fragments entries := by
  simp only [mergedSeq, hdata, hce]

/-- Folding the fragment-merge step equals extending the built map with
the rebased entries. -/
theorem foldl_merge_eq_buildMap (path : String) (m : List (String × Entry))
    (l : List Entry) :
    l.foldl (ManifestGenerator.mergeFragmentEntry path) m
      = buildMap m (l.map (ManifestGenerator.rebaseFragmentEntry path)) := by
  unfold buildMap
  rw [List.foldl_map]
  rfl

/-- When the fragment loop of `createManifest` succeeds, its final map is
the map built from the merge sequence collected by `mergedFragments`. -/
theorem processFragments_merged (path : String)
    (cmf : String → List String → Except Unit (Manifest × Nat)) :
    ∀ (frags : List String) (m : List (String × Entry)) (flm : Nat)
      (accL : List Entry) (m2 : List (String × Entry)) (flm2 : Nat),
      ManifestGenerator.processFragments path cmf frags m flm = Except.ok (m2, flm2) →
      m = buildMap [] accL →
      ∃ L2, mergedFragments path cmf frags accL = Except.ok L2 ∧ m2 = buildMap [] L2 := by
  intro frags
  induction frags with
  | nil =>
    intro m flm accL m2 flm2 h hb
    rw [processFragments_nil] at h
    injection h with h2
    injection h2 with h3 h4
    exact ⟨accL, mergedFragments_nil path cmf accL, by rw [← h3]; exact hb⟩
  | cons fp rest ih =>
    intro m flm accL m2 flm2 h hb
    cases hcm : cmf fp [fp ++ ".plain.html"] with
    | error e =>
      rw [processFragments_cons_err path cmf fp rest m flm e hcm] at h
      cases h
    | ok pr =>
      obtain ⟨subMan, ts_f⟩ := pr
      rw [processFragments_cons_ok path cmf fp rest m flm subMan ts_f hcm] at h
      have hb2 : subMan.entries.foldl (ManifestGenerator.mergeFragmentEntry path) m
          = buildMap []
            (accL ++ subMan.entries.map (ManifestGenerator.rebaseFragmentEntry path)) := by
        rw [foldl_merge_eq_buildMap, hb]
        unfold buildMap
        rw [List.foldl_append]
      obtain ⟨L2, hm, hbm⟩ := ih _ (max flm ts_f) _ m2 flm2 h hb2
      refine ⟨L2, ?_, hbm⟩
      rw [mergedFragments_cons_ok path cmf fp rest accL subMan ts_f hcm]
      exact hm

/-- A found value's path is the key it was found under. -/
theorem getVal_path (m : List (String × Entry))
    (hvp : ∀ p ∈ m, p.2.path = p.1) (k : String) (v : Entry)
    (h : getVal m k = some v) : v.path = k := by
  unfold getVal at h
  cases hf : m.find? (fun p => p.1 == k) with
  | none => rw [hf] at h; cases h
  | some p =>
    rw [hf] at h
    injection h with h2
    have hp := List.find?_some hf
    rw [← h2, hvp p (List.mem_of_find?_eq_some hf)]
    exact beq_iff_eq.mp hp

/-- Claim C7 (confirmed): in the manifest returned by `createManifest`,
entry paths are pairwise distinct; and against the merge sequence `L`
collected by `mergedSeq` (page entry first, then the resource set, then
fragment merges in fragment-list order, post-rebase), every surviving
entry is the LAST entry of its path class in `L`, and every merged path
survives as some entry. -/
theorem C7_unique_paths_last_wins (fetchLM : Probe) (isFileDirty : DirtyCheck)
    (now : Nat) (host : String) (manifestMap : String → Option PageData)
    (isHtmlUpdatedMap : String → Bool) (fuel : Nat) (path : String) (aa : List String)
    (man : Manifest) (ts : Nat)
    (hok : ManifestGenerator.createManifest fetchLM isFileDirty now host manifestMap
      isHtmlUpdatedMap fuel path aa = Except.ok (man, ts)) :
    ∃ L, mergedSeq fetchLM isFileDirty now host manifestMap isHtmlUpdatedMap
        fuel path aa = Except.ok L ∧
      (man.entries.map Entry.path).Nodup ∧
      (∀ e ∈ man.entries, (L.filter (fun x => x.path == e.path)).getLast? = some e) ∧
      (∀ x ∈ L, ∃ e ∈ man.entries, e.path = x.path) := by
  cases fuel with
  | zero =>
    rw [createManifest_zero] at hok
    cases hok
  | succ fuel =>
    cases hdata : manifestMap path with
    | none =>
      rw [createManifest_succ_none fetchLM isFileDirty now host manifestMap
        isHtmlUpdatedMap fuel path aa hdata] at hok
      cases hok
    | some data =>
      cases hce : ManifestGenerator.createEntries fetchLM isFileDirty now host data.path
          (ManifestGenerator.pageResourceSet data aa) (isHtmlUpdatedMap data.path) with
      | error e =>
        rw [createManifest_succ_ce_err fetchLM isFileDirty now host manifestMap
          isHtmlUpdatedMap fuel path aa data e hdata hce] at hok
        cases hok
      | ok pr =>
        obtain ⟨entries, lastModified⟩ := pr
        cases hpf : ManifestGenerator.processFragments path
            (fun p paa => ManifestGenerator.createManifest fetchLM isFileDirty now host
              manifestMap isHtmlUpdatedMap fuel p paa)
            data.fragments (entries.foldl (fun m e => mapSet m e.path e) []) 0 with
        | error e2 =>
          rw [createManifest_succ_pf_err fetchLM isFileDirty now host manifestMap
            isHtmlUpdatedMap fuel path aa data entries lastModified e2 hdata hce hpf] at hok
          cases hok
        | ok pr2 =>
          obtain ⟨allEntries, flm⟩ := pr2
          rw [createManifest_succ_ok fetchLM isFileDirty now host manifestMap
            isHtmlUpdatedMap fuel path aa data entries lastModified allEntries flm
            hdata hce hpf] at hok
          injection hok with h2
          injection h2 with hman hts
          obtain ⟨L2, hmrg, hbm⟩ := processFragments_merged path
            (fun p paa => ManifestGenerator.createManifest fetchLM isFileDirty now host
              manifestMap isHtmlUpdatedMap fuel p paa)
            data.fragments (entries.foldl (fun m e => mapSet m e.path e) []) 0 entries
            allEntries flm hpf (by unfold buildMap; rfl)
          have hent : man.entries = allEntries.map Prod.snd := by
            rw [← hman]
          obtain ⟨hnd, hvp⟩ := buildMap_invariants L2 [] (by simp) (by simp)
          rw [← hbm] at hnd hvp
          refine ⟨L2, ?_, ?_, ?_, ?_⟩
          · rw [mergedSeq_succ_ok fetchLM isFileDirty now host manifestMap
              isHtmlUpdatedMap fuel path aa data entries lastModified hdata hce]
            exact hmrg
          · rw [hent, List.map_map]
            have hmp : allEntries.map (Entry.path ∘ Prod.snd) = allEntries.map Prod.fst := by
              apply List.map_congr_left
              intro p hp
              exact hvp p hp
            rw [hmp]
            exact hnd
          · intro e he
            rw [hent] at he
            have hget : getVal allEntries e.path = some e :=
              getVal_of_mem_values allEntries hnd hvp e he
            rw [hbm, buildMap_getVal] at hget
            cases hl : (L2.filter (fun x => x.path == e.path)).getLast? with
            | some e2 =>
              rw [hl] at hget
              have hget2 : some e2 = some e := hget
              exact hget2
            | none =>
              rw [hl] at hget
              have hget2 : getVal ([] : List (String × Entry)) e.path = some e := hget
              cases hget2
          · intro x hx
            have hmemf : x ∈ L2.filter (fun y => y.path == x.path) :=
              List.mem_filter.mpr ⟨hx, by simp⟩
            cases hl : (L2.filter (fun y => y.path == x.path)).getLast? with
            | none =>
              rw [List.getLast?_eq_none_iff] at hl
              rw [hl] at hmemf
              cases hmemf
            | some e2 =>
              have hget := buildMap_getVal L2 [] x.path
              rw [hl] at hget
              have hget2 : getVal (buildMap [] L2) x.path = some e2 := hget
              rw [← hbm] at hget2
              refine ⟨e2, ?_, ?_⟩
              · rw [hent]
                exact getVal_mem allEntries x.path e2 hget2
              · exact getVal_path allEntries hvp x.path e2 hget2

/-- Page fixture for the C7 witness: the page lists its own html file as a
dependency, so two entries with the same path are merged and the one
processed last survives. -/
def exC7Map : String → Option PageData := fun p =>
  if p = "/a/p" then some { path := "/a/p", dependencies := ["/a/p.html"] } else none

/-- Probe fixture for the C7 witness. -/
def exC7Probe : Probe := fun _ p =>
  if p = "/a/p.html" then Except.ok (some 5) else Except.ok none

/-- The manifest of the C7 witness run: the page entry (wall-clock
timestamp 9) is overwritten by the dependency entry (timestamp 5). -/
def exC7Man : Manifest :=
  { version := "3.0",
    timestamp := 9,
    entries := [⟨"/a/p.html", some 5, none⟩],
    contentDelivery :=
      { providers := [{ name := "franklin", endpoint := "/" }],
        defaultProvider := "franklin" } }

/-- Witness for C7 at a run with a duplicated path. -/
theorem C7_unique_paths_last_wins_witness :
    ∃ L, mergedSeq exC7Probe (fun _ => false) 9 "h" exC7Map (fun p => p = "/a/p")
        1 "/a/p" [] = Except.ok L ∧
      (exC7Man.entries.map Entry.path).Nodup ∧
      (∀ e ∈ exC7Man.entries,
        (L.filter (fun x => x.path == e.path)).getLast? = some e) ∧
      (∀ x ∈ L, ∃ e ∈ exC7Man.entries, e.path = x.path) :=
  C7_unique_paths_last_wins exC7Probe (fun _ => false) 9 "h" exC7Map
    (fun p => p = "/a/p") 1 "/a/p" [] exC7Man 9 (by decide)

/-- Prepending anything preserves the existence of an occurrence. -/
theorem firstOccurIdx_isSome_append_left (pat : List Char) :
    ∀ (u s : List Char), (firstOccurIdx pat s).isSome = true →
      (firstOccurIdx pat (u ++ s)).isSome = true := by
  intro u
  induction u with
  | nil => intro s h; exact h
  | cons c cs ih =>
    intro s h
    rw [List.cons_append, firstOccurIdx]
    by_cases hp : pat.isPrefixOf (c :: (cs ++ s)) = true
    · rw [if_pos hp]
      rfl
    · rw [if_neg hp]
      have hih := ih s h
      cases hfo : firstOccurIdx pat (cs ++ s) with
      | none => rw [hfo] at hih; exact hih
      | some j => rfl

/-- Dropping an all-whitespace head does not change whether an all
non-whitespace pattern occurs. -/
theorem firstOccurIdx_isSome_ws_head (pat : List Char) (hne : pat ≠ [])
    (hpat : ∀ c ∈ pat, isJsWS c = false) :
    ∀ (w t : List Char), (∀ c ∈ w, isJsWS c = true) →
      (firstOccurIdx pat (w ++ t)).isSome = (firstOccurIdx pat t).isSome := by
  intro w
  induction w with
  | nil => intro t _; rfl
  | cons c cs ih =>
    intro t hw
    cases pat with
    | nil => exact absurd rfl hne
    | cons p ps =>
      have hpc : (p == c) = false := by
        rw [beq_eq_false_iff_ne]
        intro he
        have h1 := hpat p (by simp)
        have h2 := hw c (by simp)
        rw [he, h2] at h1
        cases h1
      rw [List.cons_append, firstOccurIdx]
      have hno : ((p :: ps).isPrefixOf (c :: (cs ++ t))) = false := by
        simp [List.isPrefixOf, hpc]
      rw [hno]
      simp only [Bool.false_eq_true, if_false]
      have hih := ih t (fun x hx => hw x (List.mem_cons_of_mem _ hx))
      cases hfo : firstOccurIdx (p :: ps) (cs ++ t) with
      | none => rw [hfo] at hih; exact hih
      | some j => rw [hfo] at hih; exact hih

/-- Trimming does not change whether an all non-whitespace pattern occurs
in a string. -/
theorem jsIncludes_trim (s pat : String) (hne : pat.data ≠ [])
    (hpat : ∀ c ∈ pat.data, isJsWS c = false) :
    jsIncludes (jsTrim s) pat = jsIncludes s pat := by
  unfold jsIncludes
  obtain ⟨w1, hw1, hws1⟩ := trimLeftWS_decomp s.data
  obtain ⟨w2, hw2, hws2⟩ := trimRightWS_decomp (trimLeftWS s.data)
  have hdata : s.data = w1 ++ ((jsTrim s).data ++ w2) := by
    conv_lhs => rw [hw1]
    rw [hw2]
    rfl
  conv_rhs => rw [hdata]
  rw [← List.append_assoc,
    firstOccurIdx_append_ws pat.data (w1 ++ (jsTrim s).data) w2 hne hpat hws2]
  rw [firstOccurIdx_isSome_ws_head pat.data hne hpat w1 (jsTrim s).data hws1]

/-- `isMedia` of the trimmed path equals `isMedia` of the path. -/
theorem isMedia_trim (x : String) :
    ManifestGenerator.isMedia (jsTrim x) = ManifestGenerator.isMedia x := by
  unfold ManifestGenerator.isMedia
  rw [jsTrim_idem]

/-- A media path stays a media path under any prefix. -/
theorem isMedia_append_left (pre x : String)
    (h : ManifestGenerator.isMedia x = true) :
    ManifestGenerator.isMedia (pre ++ x) = true := by
  unfold ManifestGenerator.isMedia at h ⊢
  rw [jsIncludes_trim x Constants.MEDIA_MARKER (by decide) (by decide)] at h
  rw [jsIncludes_trim (pre ++ x) Constants.MEDIA_MARKER (by decide) (by decide)]
  unfold jsIncludes at h ⊢
  rw [string_data_append]
  exact firstOccurIdx_isSome_append_left Constants.MEDIA_MARKER.data pre.data x.data h

/-- Rebasing a fragment entry never touches its hash or timestamp. -/
theorem rebase_fields (path : String) (e : Entry) :
    (ManifestGenerator.rebaseFragmentEntry path e).hash = e.hash ∧
    (ManifestGenerator.rebaseFragmentEntry path e).timestamp = e.timestamp := by
  unfold ManifestGenerator.rebaseFragmentEntry
  by_cases hm : ManifestGenerator.isMedia e.path = true
  · rw [if_pos hm]
    exact ⟨rfl, rfl⟩
  · rw [if_neg hm]
    exact ⟨rfl, rfl⟩

/-- A value of `mapSet m k v` is a value of `m` or is `v`. -/
theorem mapSet_values_subset (m : List (String × Entry)) (k : String) (v : Entry) :
    ∀ w ∈ (mapSet m k v).map Prod.snd, w ∈ m.map Prod.snd ∨ w = v := by
  unfold mapSet
  by_cases hmem : k ∈ m.map Prod.fst
  · rw [if_pos hmem]
    intro w hw
    obtain ⟨q, hq, hqw⟩ := List.mem_map.mp hw
    obtain ⟨q0, hq0, hq0q⟩ := List.mem_map.mp hq
    by_cases hq1 : q0.1 = k
    · rw [if_pos hq1] at hq0q
      right
      rw [← hqw, ← hq0q]
    · rw [if_neg hq1] at hq0q
      left
      rw [← hqw, ← hq0q]
      exact List.mem_map.mpr ⟨q0, hq0, rfl⟩
  · rw [if_neg hmem]
    intro w hw
    rw [List.map_append] at hw
    rcases List.mem_append.mp hw with h1 | h2
    · exact Or.inl h1
    · right
      simpa using h2

/-- A value of the built map is an initial value or one of the folded
entries. -/
theorem buildMap_values_subset :
    ∀ (L : List Entry) (m : List (String × Entry)),
      ∀ w ∈ (buildMap m L).map Prod.snd, w ∈ m.map Prod.snd ∨ w ∈ L := by
  intro L
  induction L with
  | nil => intro m w hw; exact Or.inl hw
  | cons e rest ih =>
    intro m w hw
    rcases ih (mapSet m e.path e) w hw with h1 | h2
    · rcases mapSet_values_subset m e.path e w h1 with h3 | h4
      · exact Or.inl h3
      · exact Or.inr (by rw [h4]; exact List.mem_cons_self _ _)
    · exact Or.inr (List.mem_cons_of_mem _ h2)

/-- The page entry never carries a hash. -/
theorem getPageJsonEntry_hash_none (fetchLM : Probe) (now : Nat)
    (host path : String) (isHtmlUpdated : Bool) (pe : Entry)
    (h : ManifestGenerator.getPageJsonEntry fetchLM now host path isHtmlUpdated
      = Except.ok pe) : pe.hash = none := by
  simp only [ManifestGenerator.getPageJsonEntry] at h
  cases hf : fetchLM host (path ++ ".html") with
  | error e => rw [hf] at h; cases h
  | ok date =>
    rw [hf] at h
    cases isHtmlUpdated with
    | true =>
      simp only [if_true] at h
      injection h with h2
      rw [← h2]
    | false =>
      simp only [Bool.false_eq_true, if_false] at h
      cases date with
      | some t => injection h with h2; rw [← h2]
      | none => injection h with h2; rw [← h2]

/-- Full field exclusivity of a resource entry: a hash only with a media
path and no timestamp, a timestamp only with a non-media path and no
hash. -/
def entryExclusive (e : Entry) : Prop :=
  (e.hash.isSome = true →
    e.timestamp = none ∧ ManifestGenerator.isMedia e.path = true) ∧
  (e.timestamp.isSome = true →
    e.hash = none ∧ ManifestGenerator.isMedia e.path = false)

/-- Every entry appended by the resource loop satisfies full field
exclusivity. -/
theorem processResource_exclusive (fetchLM : Probe) (isFileDirty : DirtyCheck)
    (host parentPath : String) (acc : List Entry × Nat) (r : String) :
    ∃ δ, (ManifestGenerator.processResource fetchLM isFileDirty host parentPath acc r).1
        = acc.1 ++ δ ∧ ∀ e ∈ δ, entryExclusive e := by
  simp only [ManifestGenerator.processResource]
  cases fetchLM host (jsTrim r) with
  | ok date =>
    by_cases hm : ManifestGenerator.isMedia (jsTrim r) = true
    · refine ⟨[Entry.mk (parentPath ++ r) none
        (some (ManifestGenerator.getHashFromMedia (jsTrim r)))], by simp [hm], ?_⟩
      intro e he
      rw [List.mem_singleton.mp he]
      rw [isMedia_trim r] at hm
      exact ⟨fun _ => ⟨rfl, isMedia_append_left parentPath r hm⟩,
        fun hts => nomatch hts⟩
    · rw [Bool.not_eq_true] at hm
      have hmr : ManifestGenerator.isMedia r = false := by
        rw [← isMedia_trim r]
        exact hm
      cases date with
      | some t =>
        refine ⟨[Entry.mk r (some t) none], by simp [hm], ?_⟩
        intro e he
        rw [List.mem_singleton.mp he]
        exact ⟨fun hh => (nomatch hh), fun _ => ⟨rfl, hmr⟩⟩
      | none =>
        refine ⟨[Entry.mk r none none], by simp [hm], ?_⟩
        intro e he
        rw [List.mem_singleton.mp he]
        exact ⟨fun hh => (nomatch hh), fun hts => (nomatch hts)⟩
  | error e0 =>
    by_cases hd : isFileDirty (jsSubstringFrom (jsTrim r) 1) = true
    · by_cases hm : ManifestGenerator.isMedia (jsTrim r) = true
      · refine ⟨[Entry.mk (parentPath ++ r) none
          (some (ManifestGenerator.getHashFromMedia (jsTrim r)))], by simp [hd, hm], ?_⟩
        intro e he
        rw [List.mem_singleton.mp he]
        rw [isMedia_trim r] at hm
        exact ⟨fun _ => ⟨rfl, isMedia_append_left parentPath r hm⟩,
          fun hts => nomatch hts⟩
      · rw [Bool.not_eq_true] at hm
        refine ⟨[Entry.mk r none none], by simp [hd, hm], ?_⟩
        intro e he
        rw [List.mem_singleton.mp he]
        exact ⟨fun hh => (nomatch hh), fun hts => (nomatch hts)⟩
    · rw [Bool.not_eq_true] at hd
      exact ⟨[], by simp [hd], by intro e he; cases he⟩

/-- The resource fold only appends exclusivity-respecting entries. -/
theorem foldl_processResource_exclusive (fetchLM : Probe) (isFileDirty : DirtyCheck)
    (host parentPath : String) :
    ∀ (rs : List String) (acc : List Entry × Nat),
      ∃ Δ, (rs.foldl (ManifestGenerator.processResource fetchLM isFileDirty host parentPath) acc).1
          = acc.1 ++ Δ ∧ ∀ e ∈ Δ, entryExclusive e := by
  intro rs
  induction rs with
  | nil => intro acc; exact ⟨[], by simp, by intro e he; cases he⟩
  | cons r rest ih =>
    intro acc
    rw [List.foldl_cons]
    obtain ⟨δ, hδ, hδq⟩ := processResource_exclusive fetchLM isFileDirty host parentPath acc r
    obtain ⟨Δ, hΔ, hΔq⟩ := ih (ManifestGenerator.processResource fetchLM isFileDirty host parentPath acc r)
    refine ⟨δ ++ Δ, by rw [hΔ, hδ, List.append_assoc], ?_⟩
    intro e he
    rcases List.mem_append.mp he with h1 | h2
    · exact hδq e h1
    · exact hΔq e h2

/-- Characterization of the entries of a successful `createEntries` run:
the page entry heads the list and carries no hash, and every resource
entry satisfies full field exclusivity. -/
theorem createEntries_exclusive (fetchLM : Probe) (isFileDirty : DirtyCheck)
    (now : Nat) (host path : String) (pageResources : List String)
    (isHtmlUpdated : Bool) (es : List Entry) (lm : Nat)
    (hok : ManifestGenerator.createEntries fetchLM isFileDirty now host path
      pageResources isHtmlUpdated = Except.ok (es, lm)) :
    ∃ pe rest, es = pe :: rest ∧ pe.hash = none ∧ ∀ e ∈ rest, entryExclusive e := by
  cases hpe : ManifestGenerator.getPageJsonEntry fetchLM now host path isHtmlUpdated with
  | error e =>
    rw [createEntries_err fetchLM isFileDirty now host path _ isHtmlUpdated e hpe] at hok
    cases hok
  | ok pe =>
    rw [createEntries_ok fetchLM isFileDirty now host path _ isHtmlUpdated pe hpe] at hok
    injection hok with hok
    obtain ⟨Δ, hΔ, hΔq⟩ := foldl_processResource_exclusive fetchLM isFileDirty host
      (PathUtils.getParentFromPath path) pageResources ([pe], ManifestGenerator.pageSeed pe)
    rw [hok] at hΔ
    exact ⟨pe, Δ, hΔ, getPageJsonEntry_hash_none fetchLM now host path isHtmlUpdated pe hpe,
      hΔq⟩

/-- Fragment merging collects only entries with at most one of the hash
and timestamp fields, given that every recursive manifest's entries
satisfy that property (rebasing touches only the path). -/
theorem mergedFragments_no_both (path : String)
    (cmf : String → List String → Except Unit (Manifest × Nat))
    (hsub : ∀ p aa man ts, cmf p aa = Except.ok (man, ts) →
      ∀ e ∈ man.entries, e.hash = none ∨ e.timestamp = none) :
    ∀ (frags : List String) (acc : List Entry),
      (∀ e ∈ acc, e.hash = none ∨ e.timestamp = none) →
      ∀ L, mergedFragments path cmf frags acc = Except.ok L →
      ∀ e ∈ L, e.hash = none ∨ e.timestamp = none := by
  intro frags
  induction frags with
  | nil =>
    intro acc hacc L h
    rw [mergedFragments_nil] at h
    injection h with h2
    rw [← h2]
    exact hacc
  | cons fp rest ih =>
    intro acc hacc L h
    cases hcm : cmf fp [fp ++ ".plain.html"] with
    | error e =>
      rw [mergedFragments_cons_err path cmf fp rest acc e hcm] at h
      cases h
    | ok pr =>
      obtain ⟨subMan, ts_f⟩ := pr
      rw [mergedFragments_cons_ok path cmf fp rest acc subMan ts_f hcm] at h
      refine ih _ ?_ L h
      intro e he
      rcases List.mem_append.mp he with h1 | h2
      · exact hacc e h1
      · obtain ⟨e0, he0, hre⟩ := List.mem_map.mp h2
        have hf := rebase_fields path e0
        rcases hsub fp [fp ++ ".plain.html"] subMan ts_f hcm e0 he0 with hh | ht
        · exact Or.inl (by rw [← hre, hf.1, hh])
        · exact Or.inr (by rw [← hre, hf.2, ht])

/-- Every entry of every manifest produced by `createManifest` carries at
most one of the hash and timestamp fields. -/
theorem createManifest_no_both (fetchLM : Probe) (isFileDirty : DirtyCheck)
    (now : Nat) (host : String) (manifestMap : String → Option PageData)
    (isHtmlUpdatedMap : String → Bool) :
    ∀ (fuel : Nat) (path : String) (aa : List String) (man : Manifest) (ts : Nat),
      ManifestGenerator.createManifest fetchLM isFileDirty now host manifestMap
        isHtmlUpdatedMap fuel path aa = Except.ok (man, ts) →
      ∀ e ∈ man.entries, e.hash = none ∨ e.timestamp = none := by
  intro fuel
  induction fuel with
  | zero =>
    intro path aa man ts h
    rw [createManifest_zero] at h
    cases h
  | succ fuel ih =>
    intro path aa man ts hok
    cases hdata : manifestMap path with
    | none =>
      rw [createManifest_succ_none fetchLM isFileDirty now host manifestMap
        isHtmlUpdatedMap fuel path aa hdata] at hok
      cases hok
    | some data =>
      cases hce : ManifestGenerator.createEntries fetchLM isFileDirty now host data.path
          (ManifestGenerator.pageResourceSet data aa) (isHtmlUpdatedMap data.path) with
      | error e =>
        rw [createManifest_succ_ce_err fetchLM isFileDirty now host manifestMap
          isHtmlUpdatedMap fuel path aa data e hdata hce] at hok
        cases hok
      | ok pr =>
        obtain ⟨entries, lastModified⟩ := pr
        cases hpf : ManifestGenerator.processFragments path
            (fun p paa => ManifestGenerator.createManifest fetchLM isFileDirty now host
              manifestMap isHtmlUpdatedMap fuel p paa)
            data.fragments (entries.foldl (fun m e => mapSet m e.path e) []) 0 with
        | error e2 =>
          rw [createManifest_succ_pf_err fetchLM isFileDirty now host manifestMap
            isHtmlUpdatedMap fuel path aa data entries lastModified e2 hdata hce hpf] at hok
          cases hok
        | ok pr2 =>
          obtain ⟨allEntries, flm⟩ := pr2
          rw [createManifest_succ_ok fetchLM isFileDirty now host manifestMap
            isHtmlUpdatedMap fuel path aa data entries lastModified allEntries flm
            hdata hce hpf] at hok
          injection hok with h2
          injection h2 with hman hts
          obtain ⟨L2, hmrg, hbm⟩ := processFragments_merged path
            (fun p paa => ManifestGenerator.createManifest fetchLM isFileDirty now host
              manifestMap isHtmlUpdatedMap fuel p paa)
            data.fragments (entries.foldl (fun m e => mapSet m e.path e) []) 0 entries
            allEntries flm hpf (by unfold buildMap; rfl)
          have hentriesP : ∀ e ∈ entries, e.hash = none ∨ e.timestamp = none := by
            obtain ⟨pe, rest, hes, hpe, hq⟩ := createEntries_exclusive fetchLM isFileDirty
              now host data.path (ManifestGenerator.pageResourceSet data aa)
              (isHtmlUpdatedMap data.path) entries lastModified hce
            intro e he
            rw [hes] at he
            rcases List.mem_cons.mp he with h1 | h2
            · exact Or.inl (by rw [h1]; exact hpe)
            · by_cases hh : e.hash.isSome = true
              · exact Or.inr ((hq e h2).1 hh).1
              · left
                cases hhe : e.hash with
                | none => rfl
                | some v => rw [hhe] at hh; exact absurd rfl hh
          have hLP : ∀ e ∈ L2, e.hash = none ∨ e.timestamp = none :=
            mergedFragments_no_both path
              (fun p paa => ManifestGenerator.createManifest fetchLM isFileDirty now host
                manifestMap isHtmlUpdatedMap fuel p paa)
              (fun p aa2 man2 ts2 hcm => ih p aa2 man2 ts2 hcm)
              data.fragments entries hentriesP L2 hmrg
          intro e he
          have he2 : e ∈ allEntries.map Prod.snd := by
            rw [← hman] at he
            exact he
          rcases buildMap_values_subset L2 [] e (by rw [← hbm]; exact he2) with h1 | h2
          · cases h1
          · exact hLP e h2

/-- Claim C6 as amended (proved): no entry in any produced manifest
carries both a hash and a timestamp; in the entry list of `createEntries`
the page entry heads the list and never carries a hash, and every
resource entry satisfies full exclusivity (a hash only with a media path
and no timestamp, a timestamp only with a non-media path and no hash).
The original claim fails only in that a PAGE entry whose own path
contains the media marker may carry a timestamp. -/
theorem C6_exclusivity_amended (fetchLM : Probe) (isFileDirty : DirtyCheck)
    (now : Nat) (host : String) (manifestMap : String → Option PageData)
    (isHtmlUpdatedMap : String → Bool) :
    (∀ fuel path aa man ts,
      ManifestGenerator.createManifest fetchLM isFileDirty now host manifestMap
        isHtmlUpdatedMap fuel path aa = Except.ok (man, ts) →
      ∀ e ∈ man.entries, e.hash = none ∨ e.timestamp = none) ∧
    (∀ path prs b es lm,
      ManifestGenerator.createEntries fetchLM isFileDirty now host path prs b
        = Except.ok (es, lm) →
      ∃ pe rest, es = pe :: rest ∧ pe.hash = none ∧ ∀ e ∈ rest, entryExclusive e) :=
  ⟨createManifest_no_both fetchLM isFileDirty now host manifestMap isHtmlUpdatedMap,
   fun path prs b es lm h =>
     createEntries_exclusive fetchLM isFileDirty now host path prs b es lm h⟩

/-- Page fixture for the C6 counterexample: a page whose leaf name starts
with `media_`, so the page entry path contains the media marker. -/
def exC6Map : String → Option PageData := fun p =>
  if p = "/docs/media_kit" then some { path := "/docs/media_kit" } else none

/-- Claim C6, counterexample: the page entry `/docs/media_kit.html` has a
media path (it contains the marker `/media_`) yet carries a timestamp,
contradicting "an entry whose resource path is a media path never carries
a timestamp field". -/
theorem C6_counterexample :
    (ManifestGenerator.createManifest (fun _ _ => Except.ok (some 5)) (fun _ => false)
        0 "h" exC6Map (fun _ => false) 1 "/docs/media_kit" []).map (fun pr => pr.1.entries)
      = Except.ok [⟨"/docs/media_kit.html", some 5, none⟩] ∧
    ManifestGenerator.isMedia "/docs/media_kit.html" = true ∧
    PathUtils.isMedia "/docs/media_kit.html" = true ∧
    (Entry.mk "/docs/media_kit.html" (some 5) none).timestamp = some 5 := by
  refine ⟨by decide, by decide, by decide, rfl⟩

/-- Witness for the amended C6 on the spec's end-to-end scenario. -/
theorem C6_exclusivity_amended_witness :
    ∀ e ∈ exC1Man.entries, e.hash = none ∨ e.timestamp = none :=
  (C6_exclusivity_amended exC1Probe (fun _ => false) 7 "h" exC1Map (fun _ => false)).1
    1 "/site/page" [] exC1Man 1704067200000 (by decide)

/-- Relation between entries of two `createManifest` runs that differ
only in the wall-clock value (`now1` vs `now2`): same path and hash, and
the same timestamp unless both are the respective wall clocks — which
can only happen when some page is flagged as just updated. -/
def EntryRel (now1 now2 : Nat) (flag : Prop) (e1 e2 : Entry) : Prop :=
  e1.path = e2.path ∧ e1.hash = e2.hash ∧
  (e1.timestamp = e2.timestamp ∨
    (e1.timestamp = some now1 ∧ e2.timestamp = some now2 ∧ flag))

theorem EntryRel_refl (now1 now2 : Nat) (flag : Prop) (e : Entry) :
    EntryRel now1 now2 flag e e := ⟨rfl, rfl, Or.inl rfl⟩

/-- The corresponding relation on map bindings. -/
def KVRel (now1 now2 : Nat) (flag : Prop) (p1 p2 : String × Entry) : Prop :=
  p1.1 = p2.1 ∧ EntryRel now1 now2 flag p1.2 p2.2

/-- The corresponding relation on `createManifest` results: the two runs
fail together, and on success their entry lists are pointwise related. -/
def CmRel (now1 now2 : Nat) (flag : Prop)
    (r1 r2 : Except Unit (Manifest × Nat)) : Prop :=
  (∀ e, r1 = Except.error e → r2 = Except.error e) ∧
  (∀ man1 ts1, r1 = Except.ok (man1, ts1) →
    ∃ man2 ts2, r2 = Except.ok (man2, ts2) ∧
      List.Forall₂ (EntryRel now1 now2 flag) man1.entries man2.entries)

/-- The two page entries of the two runs are related (the wall clock is
written only when the update flag is truthy). -/
theorem getPageJsonEntry_rel (fetchLM : Probe) (now1 now2 : Nat)
    (host path : String) (b : Bool) (flag : Prop) (hb : b = true → flag) :
    (∀ e, ManifestGenerator.getPageJsonEntry fetchLM now1 host path b = Except.error e →
      ManifestGenerator.getPageJsonEntry fetchLM now2 host path b = Except.error e) ∧
    (∀ pe1, ManifestGenerator.getPageJsonEntry fetchLM now1 host path b = Except.ok pe1 →
      ∃ pe2, ManifestGenerator.getPageJsonEntry fetchLM now2 host path b = Except.ok pe2 ∧
        EntryRel now1 now2 flag pe1 pe2) := by
  simp only [ManifestGenerator.getPageJsonEntry]
  cases hf : fetchLM host (path ++ ".html") with
  | error e0 =>
    exact ⟨fun e h => h, fun pe1 h => by cases h⟩
  | ok date =>
    cases b with
    | true =>
      simp only [if_true]
      refine ⟨fun e h => (by cases h), fun pe1 h => ?_⟩
      injection h with h2
      exact ⟨{ path := path ++ ".html", timestamp := some now2, hash := none }, rfl,
        by rw [← h2]; exact ⟨rfl, rfl, Or.inr ⟨rfl, rfl, hb rfl⟩⟩⟩
    | false =>
      simp only [Bool.false_eq_true, if_false]
      cases date with
      | some t =>
        refine ⟨fun e h => (by cases h), fun pe1 h => ?_⟩
        injection h with h2
        exact ⟨{ path := path ++ ".html", timestamp := some t, hash := none }, rfl,
          by rw [← h2]; exact EntryRel_refl now1 now2 flag _⟩
      | none =>
        refine ⟨fun e h => (by cases h), fun pe1 h => ?_⟩
        injection h with h2
        exact ⟨{ path := path ++ ".html", timestamp := none, hash := none }, rfl,
          by rw [← h2]; exact EntryRel_refl now1 now2 flag _⟩

/-- One loop iteration appends the same entries in both runs (the loop
body never reads the wall clock). -/
theorem processResource_two (fetchLM : Probe) (isFileDirty : DirtyCheck)
    (host parentPath : String) (acc1 acc2 : List Entry × Nat) (r : String) :
    ∃ δ, (ManifestGenerator.processResource fetchLM isFileDirty host parentPath acc1 r).1
        = acc1.1 ++ δ ∧
      (ManifestGenerator.processResource fetchLM isFileDirty host parentPath acc2 r).1
        = acc2.1 ++ δ := by
  simp only [ManifestGenerator.processResource]
  cases fetchLM host (jsTrim r) with
  | ok date =>
    by_cases hm : ManifestGenerator.isMedia (jsTrim r) = true
    · exact ⟨[Entry.mk (parentPath ++ r) none
        (some (ManifestGenerator.getHashFromMedia (jsTrim r)))], by simp [hm], by simp [hm]⟩
    · rw [Bool.not_eq_true] at hm
      cases date with
      | some t => exact ⟨[Entry.mk r (some t) none], by simp [hm], by simp [hm]⟩
      | none => exact ⟨[Entry.mk r none none], by simp [hm], by simp [hm]⟩
  | error e0 =>
    by_cases hd : isFileDirty (jsSubstringFrom (jsTrim r) 1) = true
    · by_cases hm : ManifestGenerator.isMedia (jsTrim r) = true
      · exact ⟨[Entry.mk (parentPath ++ r) none
          (some (ManifestGenerator.getHashFromMedia (jsTrim r)))],
          by simp [hd, hm], by simp [hd, hm]⟩
      · rw [Bool.not_eq_true] at hm
        exact ⟨[Entry.mk r none none], by simp [hd, hm], by simp [hd, hm]⟩
    · rw [Bool.not_eq_true] at hd
      exact ⟨[], by simp [hd], by simp [hd]⟩

/-- The resource folds of two runs preserve entrywise relatedness. -/
theorem foldl_processResource_rel (fetchLM : Probe) (isFileDirty : DirtyCheck)
    (host parentPath : String) (now1 now2 : Nat) (flag : Prop) :
    ∀ (rs : List String) (acc1 acc2 : List Entry × Nat),
      List.Forall₂ (EntryRel now1 now2 flag) acc1.1 acc2.1 →
      List.Forall₂ (EntryRel now1 now2 flag)
        (rs.foldl (ManifestGenerator.processResource fetchLM isFileDirty host parentPath) acc1).1
        (rs.foldl (ManifestGenerator.processResource fetchLM isFileDirty host parentPath) acc2).1 := by
  intro rs
  induction rs with
  | nil => intro acc1 acc2 h; exact h
  | cons r rest ih =>
    intro acc1 acc2 h
    rw [List.foldl_cons, List.foldl_cons]
    apply ih
    obtain ⟨δ, h1, h2⟩ := processResource_two fetchLM isFileDirty host parentPath acc1 acc2 r
    rw [h1, h2]
    exact List.rel_append h
      (List.forall₂_same.mpr (fun e _ => EntryRel_refl now1 now2 flag e))

/-- The entry lists of two `createEntries` runs are pointwise related. -/
theorem createEntries_rel (fetchLM : Probe) (isFileDirty : DirtyCheck)
    (now1 now2 : Nat) (host path : String) (prs : List String) (b : Bool)
    (flag : Prop) (hb : b = true → flag) :
    (∀ e, ManifestGenerator.createEntries fetchLM isFileDirty now1 host path prs b
        = Except.error e →
      ManifestGenerator.createEntries fetchLM isFileDirty now2 host path prs b
        = Except.error e) ∧
    (∀ es1 lm1, ManifestGenerator.createEntries fetchLM isFileDirty now1 host path prs b
        = Except.ok (es1, lm1) →
      ∃ es2 lm2, ManifestGenerator.createEntries fetchLM isFileDirty now2 host path prs b
          = Except.ok (es2, lm2) ∧
        List.Forall₂ (EntryRel now1 now2 flag) es1 es2) := by
  obtain ⟨gpErr, gpOk⟩ := getPageJsonEntry_rel fetchLM now1 now2 host path b flag hb
  cases hpe : ManifestGenerator.getPageJsonEntry fetchLM now1 host path b with
  | error e0 =>
    have hpe2 := gpErr e0 hpe
    constructor
    · intro e h
      rw [createEntries_err fetchLM isFileDirty now1 host path prs b e0 hpe] at h
      injection h with h2
      rw [← h2]
      exact createEntries_err fetchLM isFileDirty now2 host path prs b e0 hpe2
    · intro es1 lm1 h
      rw [createEntries_err fetchLM isFileDirty now1 host path prs b e0 hpe] at h
      cases h
  | ok pe1 =>
    obtain ⟨pe2, hpe2, hrel⟩ := gpOk pe1 hpe
    constructor
    · intro e h
      rw [createEntries_ok fetchLM isFileDirty now1 host path prs b pe1 hpe] at h
      cases h
    · intro es1 lm1 h
      rw [createEntries_ok fetchLM isFileDirty now1 host path prs b pe1 hpe] at h
      injection h with h2
      refine ⟨(prs.foldl (ManifestGenerator.processResource fetchLM isFileDirty host
          (PathUtils.getParentFromPath path)) ([pe2], ManifestGenerator.pageSeed pe2)).1,
        (prs.foldl (ManifestGenerator.processResource fetchLM isFileDirty host
          (PathUtils.getParentFromPath path)) ([pe2], ManifestGenerator.pageSeed pe2)).2,
        ?_, ?_⟩
      · rw [createEntries_ok fetchLM isFileDirty now2 host path prs b pe2 hpe2]
      · have hes : (prs.foldl (ManifestGenerator.processResource fetchLM isFileDirty host
            (PathUtils.getParentFromPath path)) ([pe1], ManifestGenerator.pageSeed pe1)).1
            = es1 := congrArg Prod.fst h2
        rw [← hes]
        exact foldl_processResource_rel fetchLM isFileDirty host
          (PathUtils.getParentFromPath path) now1 now2 flag prs
          ([pe1], ManifestGenerator.pageSeed pe1) ([pe2], ManifestGenerator.pageSeed pe2)
          (List.Forall₂.cons hrel List.Forall₂.nil)

/-- Rebasing preserves entry relatedness (the rebased path is the same
function of the two equal paths). -/
theorem rebase_rel (path : String) (now1 now2 : Nat) (flag : Prop) (e1 e2 : Entry)
    (h : EntryRel now1 now2 flag e1 e2) :
    EntryRel now1 now2 flag (ManifestGenerator.rebaseFragmentEntry path e1)
      (ManifestGenerator.rebaseFragmentEntry path e2) := by
  obtain ⟨hp, hh, ht⟩ := h
  unfold ManifestGenerator.rebaseFragmentEntry
  rw [hp]
  by_cases hm : ManifestGenerator.isMedia e2.path = true
  · rw [if_pos hm, if_pos hm]
    exact ⟨rfl, hh, ht⟩
  · rw [if_neg hm, if_neg hm]
    exact ⟨hp, hh, ht⟩

theorem forall2_kv_keys (now1 now2 : Nat) (flag : Prop) :
    ∀ (m1 m2 : List (String × Entry)),
      List.Forall₂ (KVRel now1 now2 flag) m1 m2 →
      m1.map Prod.fst = m2.map Prod.fst := by
  intro m1 m2 h
  induction h with
  | nil => rfl
  | cons h1 _ ih => simp [h1.1, ih]

theorem forall2_kv_values (now1 now2 : Nat) (flag : Prop)
    (m1 m2 : List (String × Entry))
    (h : List.Forall₂ (KVRel now1 now2 flag) m1 m2) :
    List.Forall₂ (EntryRel now1 now2 flag) (m1.map Prod.snd) (m2.map Prod.snd) := by
  induction h with
  | nil => exact List.Forall₂.nil
  | cons h1 _ ih => exact List.Forall₂.cons h1.2 ih

/-- The overwrite map of `mapSet` preserves relatedness pointwise. -/
theorem mapSet_overwrite_rel (now1 now2 : Nat) (flag : Prop) (k : String)
    (v1 v2 : Entry) (hv : EntryRel now1 now2 flag v1 v2) :
    ∀ (m1 m2 : List (String × Entry)),
      List.Forall₂ (KVRel now1 now2 flag) m1 m2 →
      List.Forall₂ (KVRel now1 now2 flag)
        (m1.map (fun p => if p.1 = k then (k, v1) else p))
        (m2.map (fun p => if p.1 = k then (k, v2) else p)) := by
  intro m1 m2 h
  induction h with
  | nil => exact List.Forall₂.nil
  | cons h1 _ ih =>
    rename_i p1 p2 l1 l2 _
    by_cases hp : p1.1 = k
    · have hp2 : p2.1 = k := by rw [← h1.1]; exact hp
      simp only [List.map_cons, if_pos hp, if_pos hp2]
      exact List.Forall₂.cons ⟨rfl, hv⟩ ih
    · have hp2 : ¬ p2.1 = k := by rw [← h1.1]; exact hp
      simp only [List.map_cons, if_neg hp, if_neg hp2]
      exact List.Forall₂.cons h1 ih

theorem mapSet_rel (now1 now2 : Nat) (flag : Prop) (m1 m2 : List (String × Entry))
    (k : String) (v1 v2 : Entry)
    (hm : List.Forall₂ (KVRel now1 now2 flag) m1 m2)
    (hv : EntryRel now1 now2 flag v1 v2) :
    List.Forall₂ (KVRel now1 now2 flag) (mapSet m1 k v1) (mapSet m2 k v2) := by
  unfold mapSet
  have hkeys := forall2_kv_keys now1 now2 flag m1 m2 hm
  by_cases hmem : k ∈ m1.map Prod.fst
  · rw [if_pos hmem, if_pos (by rw [← hkeys]; exact hmem)]
    exact mapSet_overwrite_rel now1 now2 flag k v1 v2 hv m1 m2 hm
  · rw [if_neg hmem, if_neg (by rw [← hkeys]; exact hmem)]
    exact List.rel_append hm (List.Forall₂.cons ⟨rfl, hv⟩ List.Forall₂.nil)

/-- The entry-map folds of two runs preserve map relatedness. -/
theorem foldl_mapSet_rel (now1 now2 : Nat) (flag : Prop) :
    ∀ (L1 L2 : List Entry), List.Forall₂ (EntryRel now1 now2 flag) L1 L2 →
      ∀ (m1 m2 : List (String × Entry)),
        List.Forall₂ (KVRel now1 now2 flag) m1 m2 →
        List.Forall₂ (KVRel now1 now2 flag)
          (L1.foldl (fun m e => mapSet m e.path e) m1)
          (L2.foldl (fun m e => mapSet m e.path e) m2) := by
  intro L1 L2 hL
  induction hL with
  | nil => intro m1 m2 h; exact h
  | cons h1 _ ih =>
    rename_i e1 e2 l1 l2 _
    intro m1 m2 hm
    rw [List.foldl_cons, List.foldl_cons]
    apply ih
    have hstep := mapSet_rel now1 now2 flag m1 m2 e1.path e1 e2 hm h1
    rw [h1.1] at hstep
    rw [← h1.1] at hstep
    have hk : mapSet m2 e2.path e2 = mapSet m2 e1.path e2 := by rw [h1.1]
    rw [hk]
    exact hstep

/-- The fragment-merge folds of two runs preserve map relatedness. -/
theorem foldl_merge_rel (path : String) (now1 now2 : Nat) (flag : Prop)
    (l1 l2 : List Entry) (hL : List.Forall₂ (EntryRel now1 now2 flag) l1 l2)
    (m1 m2 : List (String × Entry))
    (hm : List.Forall₂ (KVRel now1 now2 flag) m1 m2) :
    List.Forall₂ (KVRel now1 now2 flag)
      (l1.foldl (ManifestGenerator.mergeFragmentEntry path) m1)
      (l2.foldl (ManifestGenerator.mergeFragmentEntry path) m2) := by
  rw [foldl_merge_eq_buildMap, foldl_merge_eq_buildMap]
  unfold buildMap
  apply foldl_mapSet_rel now1 now2 flag _ _ _ _ _ hm
  have hmap : List.Forall₂
      (fun a b => EntryRel now1 now2 flag (ManifestGenerator.rebaseFragmentEntry path a)
        (ManifestGenerator.rebaseFragmentEntry path b)) l1 l2 :=
    hL.imp (fun a b h => rebase_rel path now1 now2 flag a b h)
  rw [List.forall₂_map_left_iff, List.forall₂_map_right_iff]
  exact hmap

/-- The fragment loops of two runs fail together, and on success their
accumulated maps are pointwise related. -/
theorem processFragments_rel (path : String) (now1 now2 : Nat) (flag : Prop)
    (cmf1 cmf2 : String → List String → Except Unit (Manifest × Nat))
    (hrel : ∀ p aa, CmRel now1 now2 flag (cmf1 p aa) (cmf2 p aa)) :
    ∀ (frags : List String) (m1 m2 : List (String × Entry)) (flm1 flm2 : Nat),
      List.Forall₂ (KVRel now1 now2 flag) m1 m2 →
      (∀ e, ManifestGenerator.processFragments path cmf1 frags m1 flm1 = Except.error e →
        ManifestGenerator.processFragments path cmf2 frags m2 flm2 = Except.error e) ∧
      (∀ mm1 f1,
        ManifestGenerator.processFragments path cmf1 frags m1 flm1 = Except.ok (mm1, f1) →
        ∃ mm2 f2,
          ManifestGenerator.processFragments path cmf2 frags m2 flm2 = Except.ok (mm2, f2) ∧
          List.Forall₂ (KVRel now1 now2 flag) mm1 mm2) := by
  intro frags
  induction frags with
  | nil =>
    intro m1 m2 flm1 flm2 hm
    refine ⟨?_, ?_⟩
    · intro e h
      rw [processFragments_nil] at h
      cases h
    · intro mm1 f1 h
      rw [processFragments_nil] at h
      injection h with h2
      refine ⟨m2, flm2, processFragments_nil path cmf2 m2 flm2, ?_⟩
      have hmm : m1 = mm1 := congrArg Prod.fst h2
      rw [← hmm]
      exact hm
  | cons fp rest ih =>
    intro m1 m2 flm1 flm2 hm
    obtain ⟨cErr, cOk⟩ := hrel fp [fp ++ ".plain.html"]
    cases hcm1 : cmf1 fp [fp ++ ".plain.html"] with
    | error e0 =>
      have hcm2 := cErr e0 hcm1
      refine ⟨?_, ?_⟩
      · intro e h
        rw [processFragments_cons_err path cmf1 fp rest m1 flm1 e0 hcm1] at h
        injection h with h2
        rw [← h2]
        exact processFragments_cons_err path cmf2 fp rest m2 flm2 e0 hcm2
      · intro mm1 f1 h
        rw [processFragments_cons_err path cmf1 fp rest m1 flm1 e0 hcm1] at h
        cases h
    | ok pr =>
      obtain ⟨subMan1, tsf1⟩ := pr
      obtain ⟨subMan2, tsf2, hcm2, hsub⟩ := cOk subMan1 tsf1 hcm1
      have hmerge := foldl_merge_rel path now1 now2 flag subMan1.entries subMan2.entries
        hsub m1 m2 hm
      have step1 := processFragments_cons_ok path cmf1 fp rest m1 flm1 subMan1 tsf1 hcm1
      have step2 := processFragments_cons_ok path cmf2 fp rest m2 flm2 subMan2 tsf2 hcm2
      obtain ⟨ihErr, ihOk⟩ := ih
        (subMan1.entries.foldl (ManifestGenerator.mergeFragmentEntry path) m1)
        (subMan2.entries.foldl (ManifestGenerator.mergeFragmentEntry path) m2)
        (max flm1 tsf1) (max flm2 tsf2) hmerge
      refine ⟨?_, ?_⟩
      · intro e h
        rw [step1] at h
        rw [step2]
        exact ihErr e h
      · intro mm1 f1 h
        rw [step1] at h
        rw [step2]
        exact ihOk mm1 f1 h

/-- Master relational lemma: two `createManifest` runs differing only in
the wall clock fail together, and on success their entry lists are
pointwise related modulo wall-clock timestamps, which can diverge only
when some page is flagged as recently updated. -/
theorem createManifest_rel (fetchLM : Probe) (isFileDirty : DirtyCheck)
    (now1 now2 : Nat) (host : String) (manifestMap : String → Option PageData)
    (isHtmlUpdatedMap : String → Bool) :
    ∀ (fuel : Nat) (path : String) (aa : List String),
      CmRel now1 now2 (∃ p, isHtmlUpdatedMap p = true)
        (ManifestGenerator.createManifest fetchLM isFileDirty now1 host manifestMap
          isHtmlUpdatedMap fuel path aa)
        (ManifestGenerator.createManifest fetchLM isFileDirty now2 host manifestMap
          isHtmlUpdatedMap fuel path aa) := by
  intro fuel
  induction fuel with
  | zero =>
    intro path aa
    refine ⟨?_, ?_⟩
    · intro e h
      cases e
      exact createManifest_zero fetchLM isFileDirty now2 host manifestMap
        isHtmlUpdatedMap path aa
    · intro man1 ts1 h
      rw [createManifest_zero] at h
      cases h
  | succ fuel ih =>
    intro path aa
    cases hdata : manifestMap path with
    | none =>
      refine ⟨?_, ?_⟩
      · intro e h
        cases e
        exact createManifest_succ_none fetchLM isFileDirty now2 host manifestMap
          isHtmlUpdatedMap fuel path aa hdata
      · intro man1 ts1 h
        rw [createManifest_succ_none fetchLM isFileDirty now1 host manifestMap
          isHtmlUpdatedMap fuel path aa hdata] at h
        cases h
    | some data =>
      obtain ⟨ceErr, ceOk⟩ := createEntries_rel fetchLM isFileDirty now1 now2 host
        data.path (ManifestGenerator.pageResourceSet data aa) (isHtmlUpdatedMap data.path)
        (∃ p, isHtmlUpdatedMap p = true) (fun h => ⟨data.path, h⟩)
      cases hce1 : ManifestGenerator.createEntries fetchLM isFileDirty now1 host data.path
          (ManifestGenerator.pageResourceSet data aa) (isHtmlUpdatedMap data.path) with
      | error e0 =>
        have hce2 := ceErr e0 hce1
        refine ⟨?_, ?_⟩
        · intro e h
          rw [createManifest_succ_ce_err fetchLM isFileDirty now1 host manifestMap
            isHtmlUpdatedMap fuel path aa data e0 hdata hce1] at h
          injection h with h2
          rw [← h2]
          exact createManifest_succ_ce_err fetchLM isFileDirty now2 host manifestMap
            isHtmlUpdatedMap fuel path aa data e0 hdata hce2
        · intro man1 ts1 h
          rw [createManifest_succ_ce_err fetchLM isFileDirty now1 host manifestMap
            isHtmlUpdatedMap fuel path aa data e0 hdata hce1] at h
          cases h
      | ok pr =>
        obtain ⟨entries1, lm1⟩ := pr
        obtain ⟨entries2, lm2, hce2, hforall⟩ := ceOk entries1 lm1 hce1
        have hm0 := foldl_mapSet_rel now1 now2 (∃ p, isHtmlUpdatedMap p = true)
          entries1 entries2 hforall [] [] List.Forall₂.nil
        obtain ⟨pfErr, pfOk⟩ := processFragments_rel path now1 now2
          (∃ p, isHtmlUpdatedMap p = true)
          (fun p paa => ManifestGenerator.createManifest fetchLM isFileDirty now1 host
            manifestMap isHtmlUpdatedMap fuel p paa)
          (fun p paa => ManifestGenerator.createManifest fetchLM isFileDirty now2 host
            manifestMap isHtmlUpdatedMap fuel p paa)
          (fun p paa => ih p paa) data.fragments
          (entries1.foldl (fun m e => mapSet m e.path e) [])
          (entries2.foldl (fun m e => mapSet m e.path e) []) 0 0 hm0
        cases hpf1 : ManifestGenerator.processFragments path
            (fun p paa => ManifestGenerator.createManifest fetchLM isFileDirty now1 host
              manifestMap isHtmlUpdatedMap fuel p paa)
            data.fragments (entries1.foldl (fun m e => mapSet m e.path e) []) 0 with
        | error e0 =>
          have hpf2 := pfErr e0 hpf1
          refine ⟨?_, ?_⟩
          · intro e h
            rw [createManifest_succ_pf_err fetchLM isFileDirty now1 host manifestMap
              isHtmlUpdatedMap fuel path aa data entries1 lm1 e0 hdata hce1 hpf1] at h
            injection h with h2
            rw [← h2]
            exact createManifest_succ_pf_err fetchLM isFileDirty now2 host manifestMap
              isHtmlUpdatedMap fuel path aa data entries2 lm2 e0 hdata hce2 hpf2
          · intro man1 ts1 h
            rw [createManifest_succ_pf_err fetchLM isFileDirty now1 host manifestMap
              isHtmlUpdatedMap fuel path aa data entries1 lm1 e0 hdata hce1 hpf1] at h
            cases h
        | ok pr2 =>
          obtain ⟨allE1, flm1⟩ := pr2
          obtain ⟨allE2, flm2, hpf2, hkv⟩ := pfOk allE1 flm1 hpf1
          refine ⟨?_, ?_⟩
          · intro e h
            rw [createManifest_succ_ok fetchLM isFileDirty now1 host manifestMap
              isHtmlUpdatedMap fuel path aa data entries1 lm1 allE1 flm1
              hdata hce1 hpf1] at h
            cases h
          · intro man1 ts1 h
            rw [createManifest_succ_ok fetchLM isFileDirty now1 host manifestMap
              isHtmlUpdatedMap fuel path aa data entries1 lm1 allE1 flm1
              hdata hce1 hpf1] at h
            injection h with h2
            refine ⟨_, max lm2 flm2,
              createManifest_succ_ok fetchLM isFileDirty now2 host manifestMap
                isHtmlUpdatedMap fuel path aa data entries2 lm2 allE2 flm2
                hdata hce2 hpf2, ?_⟩
            rw [Prod.mk.injEq] at h2
            obtain ⟨hman, -⟩ := h2
            rw [← hman]
            exact forall2_kv_values now1 now2 (∃ p, isHtmlUpdatedMap p = true)
              allE1 allE2 hkv

/-- C8: for any two invocations of `createManifest` with identical inputs
(same host, metadata lookup, page path, updated flags, additional assets)
and identical probe and dirty-check results, differing only in the
wall-clock reading, the two returned manifests have entries lists of the
same length and order in which corresponding entries have equal paths and
equal hashes, and equal timestamps — except that a pair of corresponding
timestamps may instead be the two runs' respective wall-clock values,
which is possible only when some page is flagged as recently updated. -/
theorem C8_deterministic_modulo_wallclock (fetchLM : Probe)
    (isFileDirty : DirtyCheck) (now1 now2 : Nat) (host : String)
    (manifestMap : String → Option PageData) (isHtmlUpdatedMap : String → Bool)
    (fuel : Nat) (path : String) (aa : List String)
    (man1 man2 : Manifest) (ts1 ts2 : Nat)
    (h1 : ManifestGenerator.createManifest fetchLM isFileDirty now1 host manifestMap
      isHtmlUpdatedMap fuel path aa = Except.ok (man1, ts1))
    (h2 : ManifestGenerator.createManifest fetchLM isFileDirty now2 host manifestMap
      isHtmlUpdatedMap fuel path aa = Except.ok (man2, ts2)) :
    List.Forall₂ (EntryRel now1 now2 (∃ p, isHtmlUpdatedMap p = true))
      man1.entries man2.entries := by
  obtain ⟨-, cmOk⟩ := createManifest_rel fetchLM isFileDirty now1 now2 host
    manifestMap isHtmlUpdatedMap fuel path aa
  obtain ⟨man2x, ts2x, h2x, hrel⟩ := cmOk man1 ts1 h1
  rw [h2x] at h2
  injection h2 with h3
  rw [Prod.mk.injEq] at h3
  obtain ⟨hm, -⟩ := h3
  rw [← hm]
  exact hrel

/-- Metadata-map fixture for the C8 witness: a page with one fragment. -/
def exC8Map : String → Option PageData := fun p =>
  if p = "/a/p" then some { path := "/a/p", fragments := ["/a/f"] }
  else if p = "/a/f" then some { path := "/a/f" }
  else none

/-- Probe fixture for the C8 witness. -/
def exC8Probe : Probe := fun _ p =>
  if p = "/a/p.html" then Except.ok (some 3) else Except.ok none

/-- Manifest of the C8 witness run at wall clock 5: the flagged fragment's
page entry carries the wall-clock timestamp. -/
def exC8Man1 : Manifest :=
  { version := "3.0",
    timestamp := 5,
    entries := [⟨"/a/p.html", some 3, none⟩, ⟨"/a/f.html", some 5, none⟩,
      ⟨"/a/f.plain.html", none, none⟩],
    contentDelivery :=
      { providers := [{ name := "franklin", endpoint := "/" }],
        defaultProvider := "franklin" } }

/-- Manifest of the C8 witness run at wall clock 9: identical except the
flagged fragment page entry's wall-clock timestamp. -/
def exC8Man2 : Manifest :=
  { version := "3.0",
    timestamp := 9,
    entries := [⟨"/a/p.html", some 3, none⟩, ⟨"/a/f.html", some 9, none⟩,
      ⟨"/a/f.plain.html", none, none⟩],
    contentDelivery :=
      { providers := [{ name := "franklin", endpoint := "/" }],
        defaultProvider := "franklin" } }

/-- Witness for C8 at two concrete runs with wall clocks 5 and 9. -/
theorem C8_deterministic_modulo_wallclock_witness :
    List.Forall₂ (EntryRel 5 9 (∃ p, (fun q => q = "/a/f" : String → Bool) p = true))
      exC8Man1.entries exC8Man2.entries :=
  C8_deterministic_modulo_wallclock exC8Probe (fun _ => false) 5 9 "h" exC8Map
    (fun q => q = "/a/f") 2 "/a/p" [] exC8Man1 exC8Man2 5 9
    (by decide) (by decide)
